import Mathlib

/-!
Verification of the schema normalizer of this repository
(`src/schema/normalizer.ts`): a shallow embedding of the JavaScript code
into Lean, plus theorems about the claims of the specification.

Modelling choices:
* JavaScript values are modelled by `JVal`.  Plain objects have reference
  identity in JavaScript (the normalizer's `WeakSet` is keyed on it), so a
  plain object is a reference `JVal.obj r` into an explicit heap; the heap
  is read-only during a call.  Arrays, which the normalizer never places in
  the `WeakSet`, are kept structural.  Input values are JSON payloads
  (results of `JSON.parse`), so there is no `undefined` and no cycle
  through arrays, and numbers are modelled as integers.
* Output values are modelled by `OVal`: the normalizer builds fresh
  objects (`OVal.obj`), and raw input values that it copies verbatim
  (`const`, `enum` members) are embedded by `ofJVal`, which keeps input
  object references as `OVal.jref`.
* The shared mutable context (`WeakSet seen`, `errors`, `warnings`) is the
  state `St`, threaded explicitly; the per-call part (`path`, `depth`,
  `options`, `hint`) is `Ctx`.
* Recursion is fuelled: `normalizeSchema` supplies `maxDepth + 1` fuel,
  which the depth guard makes sufficient, so the fuel-zero branch is
  unreachable from the entry points.
-/

/-- JavaScript/JSON values.  Plain objects are references into a heap. -/
inductive JVal where
  | null : JVal
  | bool (b : Bool) : JVal
  | num (n : Int) : JVal
  | str (s : String) : JVal
  | arr (elems : List JVal) : JVal
  | obj (r : Nat) : JVal
deriving Repr

/-- A plain object: ordered fields (JavaScript insertion order), distinct keys. -/
abbrev Obj := List (String × JVal)

/-- The heap of plain input objects; `JVal.obj r` refers to `heap[r]`. -/
abbrev Heap := List Obj

/-- Output values: fresh objects built by the normalizer (`OVal.obj`) and
copied raw input values, where an input object reference is kept as `OVal.jref`. -/
inductive OVal where
  | null : OVal
  | bool (b : Bool) : OVal
  | num (n : Int) : OVal
  | str (s : String) : OVal
  | jref (r : Nat) : OVal
  | arr (elems : List OVal) : OVal
  | obj (fields : List (String × OVal)) : OVal
deriving Repr

/-- An output object under construction. -/
abbrev OObj := List (String × OVal)

/-- Dereference a heap reference (a dangling reference acts as an empty object;
it cannot arise from a real JavaScript value). -/
def getObj (h : Heap) (r : Nat) : Obj := (h.get? r).getD []

mutual
/-- Structural decidable equality for output values. -/
def ovalDecEq : (a b : OVal) → Decidable (a = b)
  | .null, .null => isTrue rfl
  | .null, .bool b2 => isFalse (fun he => OVal.noConfusion he)
  | .null, .num n2 => isFalse (fun he => OVal.noConfusion he)
  | .null, .str s2 => isFalse (fun he => OVal.noConfusion he)
  | .null, .jref r2 => isFalse (fun he => OVal.noConfusion he)
  | .null, .arr xs2 => isFalse (fun he => OVal.noConfusion he)
  | .null, .obj fs2 => isFalse (fun he => OVal.noConfusion he)
  | .bool b1, .null => isFalse (fun he => OVal.noConfusion he)
  | .bool b1, .bool b2 =>
    if hh : b1 = b2 then isTrue (by rw [hh])
    else isFalse (fun he => hh (by injection he))
  | .bool b1, .num n2 => isFalse (fun he => OVal.noConfusion he)
  | .bool b1, .str s2 => isFalse (fun he => OVal.noConfusion he)
  | .bool b1, .jref r2 => isFalse (fun he => OVal.noConfusion he)
  | .bool b1, .arr xs2 => isFalse (fun he => OVal.noConfusion he)
  | .bool b1, .obj fs2 => isFalse (fun he => OVal.noConfusion he)
  | .num n1, .null => isFalse (fun he => OVal.noConfusion he)
  | .num n1, .bool b2 => isFalse (fun he => OVal.noConfusion he)
  | .num n1, .num n2 =>
    if hh : n1 = n2 then isTrue (by rw [hh])
    else isFalse (fun he => hh (by injection he))
  | .num n1, .str s2 => isFalse (fun he => OVal.noConfusion he)
  | .num n1, .jref r2 => isFalse (fun he => OVal.noConfusion he)
  | .num n1, .arr xs2 => isFalse (fun he => OVal.noConfusion he)
  | .num n1, .obj fs2 => isFalse (fun he => OVal.noConfusion he)
  | .str s1, .null => isFalse (fun he => OVal.noConfusion he)
  | .str s1, .bool b2 => isFalse (fun he => OVal.noConfusion he)
  | .str s1, .num n2 => isFalse (fun he => OVal.noConfusion he)
  | .str s1, .str s2 =>
    if hh : s1 = s2 then isTrue (by rw [hh])
    else isFalse (fun he => hh (by injection he))
  | .str s1, .jref r2 => isFalse (fun he => OVal.noConfusion he)
  | .str s1, .arr xs2 => isFalse (fun he => OVal.noConfusion he)
  | .str s1, .obj fs2 => isFalse (fun he => OVal.noConfusion he)
  | .jref r1, .null => isFalse (fun he => OVal.noConfusion he)
  | .jref r1, .bool b2 => isFalse (fun he => OVal.noConfusion he)
  | .jref r1, .num n2 => isFalse (fun he => OVal.noConfusion he)
  | .jref r1, .str s2 => isFalse (fun he => OVal.noConfusion he)
  | .jref r1, .jref r2 =>
    if hh : r1 = r2 then isTrue (by rw [hh])
    else isFalse (fun he => hh (by injection he))
  | .jref r1, .arr xs2 => isFalse (fun he => OVal.noConfusion he)
  | .jref r1, .obj fs2 => isFalse (fun he => OVal.noConfusion he)
  | .arr xs1, .null => isFalse (fun he => OVal.noConfusion he)
  | .arr xs1, .bool b2 => isFalse (fun he => OVal.noConfusion he)
  | .arr xs1, .num n2 => isFalse (fun he => OVal.noConfusion he)
  | .arr xs1, .str s2 => isFalse (fun he => OVal.noConfusion he)
  | .arr xs1, .jref r2 => isFalse (fun he => OVal.noConfusion he)
  | .arr xs1, .arr xs2 =>
    match ovalDecEqList xs1 xs2 with
    | isTrue hh => isTrue (by rw [hh])
    | isFalse hh => isFalse (fun he => hh (by injection he))
  | .arr xs1, .obj fs2 => isFalse (fun he => OVal.noConfusion he)
  | .obj fs1, .null => isFalse (fun he => OVal.noConfusion he)
  | .obj fs1, .bool b2 => isFalse (fun he => OVal.noConfusion he)
  | .obj fs1, .num n2 => isFalse (fun he => OVal.noConfusion he)
  | .obj fs1, .str s2 => isFalse (fun he => OVal.noConfusion he)
  | .obj fs1, .jref r2 => isFalse (fun he => OVal.noConfusion he)
  | .obj fs1, .arr xs2 => isFalse (fun he => OVal.noConfusion he)
  | .obj fs1, .obj fs2 =>
    match ovalDecEqFields fs1 fs2 with
    | isTrue hh => isTrue (by rw [hh])
    | isFalse hh => isFalse (fun he => hh (by injection he))

def ovalDecEqList : (a b : List OVal) → Decidable (a = b)
  | [], [] => isTrue rfl
  | [], _ :: _ => isFalse (fun he => List.noConfusion he)
  | _ :: _, [] => isFalse (fun he => List.noConfusion he)
  | x :: xs, y :: ys =>
    match ovalDecEq x y, ovalDecEqList xs ys with
    | isTrue h1, isTrue h2 => isTrue (by rw [h1, h2])
    | isFalse h1, _ => isFalse (fun he => h1 (by injection he))
    | _, isFalse h2 => isFalse (fun he => h2 (by injection he))

def ovalDecEqFields : (a b : List (String × OVal)) → Decidable (a = b)
  | [], [] => isTrue rfl
  | [], _ :: _ => isFalse (fun he => List.noConfusion he)
  | _ :: _, [] => isFalse (fun he => List.noConfusion he)
  | (k1, v1) :: xs, (k2, v2) :: ys =>
    if hk : k1 = k2 then
      match ovalDecEq v1 v2, ovalDecEqFields xs ys with
      | isTrue h1, isTrue h2 => isTrue (by rw [hk, h1, h2])
      | isFalse h1, _ => isFalse (fun he => by cases he; exact h1 rfl)
      | _, isFalse h2 => isFalse (fun he => by cases he; exact h2 rfl)
    else isFalse (fun he => by cases he; exact hk rfl)
end

instance : DecidableEq OVal := ovalDecEq

mutual
/-- Embed a raw input value into the output value type, keeping object identity. -/
def ofJVal : JVal → OVal
  | .null => .null
  | .bool b => .bool b
  | .num n => .num n
  | .str s => .str s
  | .arr xs => .arr (ofJValList xs)
  | .obj r => .jref r

def ofJValList : List JVal → List OVal
  | [] => []
  | x :: xs => ofJVal x :: ofJValList xs
end

mutual
/-- Structural decidable equality for input values (for object references
this is reference identity, which is what JavaScript `SameValueZero` and
hence `Set` membership use on objects). -/
def jvalDecEq : (a b : JVal) → Decidable (a = b)
  | .null, .null => isTrue rfl
  | .null, .bool b2 => isFalse (fun he => JVal.noConfusion he)
  | .null, .num n2 => isFalse (fun he => JVal.noConfusion he)
  | .null, .str s2 => isFalse (fun he => JVal.noConfusion he)
  | .null, .arr xs2 => isFalse (fun he => JVal.noConfusion he)
  | .null, .obj r2 => isFalse (fun he => JVal.noConfusion he)
  | .bool b1, .null => isFalse (fun he => JVal.noConfusion he)
  | .bool b1, .bool b2 =>
    if hh : b1 = b2 then isTrue (by rw [hh])
    else isFalse (fun he => hh (by injection he))
  | .bool b1, .num n2 => isFalse (fun he => JVal.noConfusion he)
  | .bool b1, .str s2 => isFalse (fun he => JVal.noConfusion he)
  | .bool b1, .arr xs2 => isFalse (fun he => JVal.noConfusion he)
  | .bool b1, .obj r2 => isFalse (fun he => JVal.noConfusion he)
  | .num n1, .null => isFalse (fun he => JVal.noConfusion he)
  | .num n1, .bool b2 => isFalse (fun he => JVal.noConfusion he)
  | .num n1, .num n2 =>
    if hh : n1 = n2 then isTrue (by rw [hh])
    else isFalse (fun he => hh (by injection he))
  | .num n1, .str s2 => isFalse (fun he => JVal.noConfusion he)
  | .num n1, .arr xs2 => isFalse (fun he => JVal.noConfusion he)
  | .num n1, .obj r2 => isFalse (fun he => JVal.noConfusion he)
  | .str s1, .null => isFalse (fun he => JVal.noConfusion he)
  | .str s1, .bool b2 => isFalse (fun he => JVal.noConfusion he)
  | .str s1, .num n2 => isFalse (fun he => JVal.noConfusion he)
  | .str s1, .str s2 =>
    if hh : s1 = s2 then isTrue (by rw [hh])
    else isFalse (fun he => hh (by injection he))
  | .str s1, .arr xs2 => isFalse (fun he => JVal.noConfusion he)
  | .str s1, .obj r2 => isFalse (fun he => JVal.noConfusion he)
  | .arr xs1, .null => isFalse (fun he => JVal.noConfusion he)
  | .arr xs1, .bool b2 => isFalse (fun he => JVal.noConfusion he)
  | .arr xs1, .num n2 => isFalse (fun he => JVal.noConfusion he)
  | .arr xs1, .str s2 => isFalse (fun he => JVal.noConfusion he)
  | .arr xs1, .arr xs2 =>
    match jvalDecEqList xs1 xs2 with
    | isTrue hh => isTrue (by rw [hh])
    | isFalse hh => isFalse (fun he => hh (by injection he))
  | .arr xs1, .obj r2 => isFalse (fun he => JVal.noConfusion he)
  | .obj r1, .null => isFalse (fun he => JVal.noConfusion he)
  | .obj r1, .bool b2 => isFalse (fun he => JVal.noConfusion he)
  | .obj r1, .num n2 => isFalse (fun he => JVal.noConfusion he)
  | .obj r1, .str s2 => isFalse (fun he => JVal.noConfusion he)
  | .obj r1, .arr xs2 => isFalse (fun he => JVal.noConfusion he)
  | .obj r1, .obj r2 =>
    if hh : r1 = r2 then isTrue (by rw [hh])
    else isFalse (fun he => hh (by injection he))

def jvalDecEqList : (a b : List JVal) → Decidable (a = b)
  | [], [] => isTrue rfl
  | [], _ :: _ => isFalse (fun he => List.noConfusion he)
  | _ :: _, [] => isFalse (fun he => List.noConfusion he)
  | x :: xs, y :: ys =>
    match jvalDecEq x y, jvalDecEqList xs ys with
    | isTrue h1, isTrue h2 => isTrue (by rw [h1, h2])
    | isFalse h1, _ => isFalse (fun he => h1 (by injection he))
    | _, isFalse h2 => isFalse (fun he => h2 (by injection he))
end

instance : DecidableEq JVal := jvalDecEq

/-- First value stored under a key, `none` when the key is absent
(JavaScript `undefined`). -/
def fieldJ (o : Obj) (k : String) : Option JVal :=
  (o.find? (fun p => p.1 = k)).map (fun p => p.2)

/-- Key lookup in an output object. -/
def fieldO (o : OObj) (k : String) : Option OVal :=
  (o.find? (fun p => p.1 = k)).map (fun p => p.2)

/-- JavaScript assignment `o[k] = v`: overwrite in place when the key exists,
append otherwise (insertion order is preserved). -/
def setO (o : OObj) (k : String) (v : OVal) : OObj :=
  if o.any (fun p => p.1 = k) then o.map (fun p => if p.1 = k then (k, v) else p)
  else o ++ [(k, v)]

/-- The loop of `dedupe`: `seen` is the `Set` of values met so far. -/
def dedupeAux {α : Type} [BEq α] (seen : List α) : List α → List α
  | [] => []
  | x :: xs =>
    if seen.any (fun y => y == x) then dedupeAux seen xs
    else x :: dedupeAux (x :: seen) xs

/-- `dedupe` of the source: keep the first occurrence of each value
(JavaScript `Set` membership is `SameValueZero`; for our value types this is
value identity for references and value equality for primitives). -/
def dedupe {α : Type} [BEq α] (values : List α) : List α := dedupeAux [] values

/-- JavaScript truthiness of a value. -/
def jsTruthy : OVal → Bool
  | .null => false
  | .bool b => b
  | .num n => n ≠ 0
  | .str s => s ≠ ""
  | .jref _ => true
  | .arr _ => true
  | .obj _ => true

/-- `isPlainObject` of the source, on input values. -/
def isPlainObject : JVal → Bool
  | .obj _ => true
  | _ => false

/-- `Array.isArray` on input values. -/
def isJsArray : JVal → Bool
  | .arr _ => true
  | _ => false

/-- `isPlainObject` on output values (fresh objects only; `jref` is also a
plain object at runtime, but normalized nodes are always fresh objects). -/
def isPlainObjectO : OVal → Bool
  | .obj _ => true
  | .jref _ => true
  | _ => false

/-- The kinds of `NormalizationError`. -/
inductive ErrKind where
  | circular_reference : ErrKind
  | max_depth_exceeded : ErrKind
  | invalid_schema : ErrKind
  | validation_error : ErrKind
deriving DecidableEq, Repr

/-- A `NormalizationError` (the source never populates `details`). -/
structure NErr where
  type : ErrKind
  message : String
  path : Option String
deriving DecidableEq, Repr

/-- `NormalizationConfig`: all fields optional. -/
structure NormalizationConfig where
  maxDepth : Option Nat := none
  generateDescriptions : Option Bool := none
  inferRequired : Option Bool := none
deriving DecidableEq, Repr

/-- `Required<NormalizationConfig>`. -/
structure ROptions where
  maxDepth : Nat
  generateDescriptions : Bool
  inferRequired : Bool
deriving DecidableEq, Repr

/-- `DEFAULT_CONFIG`. -/
def DEFAULT_CONFIG : ROptions := ⟨12, true, true⟩

/-- `{ ...DEFAULT_CONFIG, ...config }`. -/
def resolveConfig (c : NormalizationConfig) : ROptions :=
  ⟨c.maxDepth.getD DEFAULT_CONFIG.maxDepth,
   c.generateDescriptions.getD DEFAULT_CONFIG.generateDescriptions,
   c.inferRequired.getD DEFAULT_CONFIG.inferRequired⟩

/-- A fully-specified config, so that re-resolving yields the same options. -/
def toConfig (o : ROptions) : NormalizationConfig :=
  ⟨some o.maxDepth, some o.generateDescriptions, some o.inferRequired⟩

/-- The shared mutable part of `NormalizationContext`: the `WeakSet` of open
node identities and the diagnostics sink. -/
structure St where
  seen : List Nat
  errors : List NErr
  warnings : List String
deriving DecidableEq, Repr

/-- The per-call part of `NormalizationContext`. -/
structure Ctx where
  path : List String
  depth : Nat
  options : ROptions
  hint : Option String
deriving DecidableEq, Repr

def pushError (st : St) (e : NErr) : St := { st with errors := st.errors ++ [e] }

def pushWarning (st : St) (w : String) : St := { st with warnings := st.warnings ++ [w] }

/-- `childContext` of the source. -/
def childContext (ctx : Ctx) (segment : String) (hint : Option String) : Ctx :=
  { path := ctx.path ++ [segment], depth := ctx.depth + 1,
    options := ctx.options, hint := hint }

/-- `pathToString` of the source. -/
def pathToString (path : List String) : String :=
  if path = [] then "root" else String.intercalate "." path

/-- `prependPath` of the source. -/
def prependPath (pre : String) (suffix : Option String) : String :=
  match suffix with
  | none => pre
  | some s => if s = "" ∨ s = "root" then pre else pre ++ "." ++ s

/-- `UNSUPPORTED_KEYWORDS` of the source (note: `anyOf`, `oneOf`, `allOf` and
the dollar-ref keyword are deliberately not in this set). -/
def UNSUPPORTED_KEYWORDS : List String :=
  ["$schema", "$id", "$comment", "readOnly", "writeOnly", "deprecated",
   "contentMediaType", "contentEncoding", "if", "then", "else", "not"]

/-- `VALID_TYPES` of the source. -/
def VALID_TYPES : List String :=
  ["null", "boolean", "object", "array", "number", "string", "integer"]

/-! ## String helpers (`humanizeName` and friends) -/

def isLowerOrDigit (c : Char) : Bool :=
  ('a' ≤ c ∧ c ≤ 'z') ∨ ('0' ≤ c ∧ c ≤ '9')

def isUpperAZ (c : Char) : Bool := 'A' ≤ c ∧ c ≤ 'Z'

/-- `replace(/([a-z0-9])([A-Z])/g, "$1 $2")`. -/
def camelSplit : List Char → List Char
  | [] => []
  | [c] => [c]
  | c1 :: c2 :: rest =>
    if isLowerOrDigit c1 ∧ isUpperAZ c2 then c1 :: ' ' :: camelSplit (c2 :: rest)
    else c1 :: camelSplit (c2 :: rest)

def isDashLike (c : Char) : Bool := c = '_' ∨ c = '-'

/-- `replace(/[_-]+/g, " ")`: the flag records whether the previous character
was part of a dash run. -/
def squashDashes : Bool → List Char → List Char
  | _, [] => []
  | prev, c :: rest =>
    if isDashLike c then
      (if prev then [] else [' ']) ++ squashDashes true rest
    else c :: squashDashes false rest

def isJsSpace (c : Char) : Bool :=
  c = ' ' ∨ c = '\t' ∨ c = '\n' ∨ c = '\r' ∨ c = Char.ofNat 11 ∨ c = Char.ofNat 12

/-- `replace(/\s+/g, " ")`. -/
def collapseSpace : Bool → List Char → List Char
  | _, [] => []
  | prev, c :: rest =>
    if isJsSpace c then
      (if prev then [] else [' ']) ++ collapseSpace true rest
    else c :: collapseSpace false rest

/-- JavaScript `String.prototype.trim` (ASCII whitespace suffices here). -/
def jsTrim (s : String) : String :=
  ⟨((s.data.dropWhile isJsSpace).reverse.dropWhile isJsSpace).reverse⟩

/-- `replace(/^./, (char) => char.toUpperCase())`. -/
def capitalizeFirst : List Char → List Char
  | [] => []
  | c :: rest => c.toUpper :: rest

/-- `humanizeName` of the source. -/
def humanizeName (input : String) : String :=
  ⟨capitalizeFirst (jsTrim ⟨collapseSpace false (squashDashes false (camelSplit input.data))⟩).data⟩

/-! ## JavaScript string coercion (`String(x)`, `Array.prototype.join`) -/

mutual
/-- JavaScript `String(v)` for our values. -/
def jsStringCoerce : JVal → String
  | .null => "null"
  | .bool b => if b then "true" else "false"
  | .num n => toString n
  | .str s => s
  | .obj _ => "[object Object]"
  | .arr xs => joinComma xs

/-- `Array.prototype.toString`, i.e. `join(",")`. -/
def joinComma : List JVal → String
  | [] => ""
  | [x] => joinElem x
  | x :: y :: rest => joinElem x ++ "," ++ joinComma (y :: rest)

/-- One element under `join`: `null` renders as the empty string. -/
def joinElem : JVal → String
  | .null => ""
  | .bool b => if b then "true" else "false"
  | .num n => toString n
  | .str s => s
  | .obj _ => "[object Object]"
  | .arr xs => joinComma xs
end

mutual
/-- JavaScript `String(v)` on output values (an object prints as
`[object Object]` regardless of its content). -/
def jsStringCoerceO : OVal → String
  | .null => "null"
  | .bool b => if b then "true" else "false"
  | .num n => toString n
  | .str s => s
  | .jref _ => "[object Object]"
  | .obj _ => "[object Object]"
  | .arr xs => joinSepO "," xs

/-- `Array.prototype.join(sep)` on output values. -/
def joinSepO (sep : String) : List OVal → String
  | [] => ""
  | [x] => joinElemO x
  | x :: y :: rest => joinElemO x ++ sep ++ joinSepO sep (y :: rest)

/-- One element under `join`: `null` renders as the empty string. -/
def joinElemO : OVal → String
  | .null => ""
  | .bool b => if b then "true" else "false"
  | .num n => toString n
  | .str s => s
  | .jref _ => "[object Object]"
  | .obj _ => "[object Object]"
  | .arr xs => joinSepO "," xs
end

/-! ## JSON serialization (`JSON.stringify`, no indentation) -/

def jsonEscapeChar (c : Char) : String :=
  if c = '"' then "\\\"" else if c = '\\' then "\\\\" else String.singleton c

def jsonEscape (s : String) : String := String.join (s.data.map jsonEscapeChar)

mutual
/-- One structural level of `JSON.stringify`: `expand` serializes the object
behind a reference (it is instantiated with one fuel level less). -/
def jsonStruct (expand : Nat → String) : OVal → String
  | .null => "null"
  | .bool b => if b then "true" else "false"
  | .num n => toString n
  | .str s => "\"" ++ jsonEscape s ++ "\""
  | .jref r => expand r
  | .arr xs => "[" ++ jsonStructList expand xs ++ "]"
  | .obj fields => "\x7b" ++ jsonStructFields expand fields ++ "\x7d"

def jsonStructList (expand : Nat → String) : List OVal → String
  | [] => ""
  | [x] => jsonStruct expand x
  | x :: y :: rest => jsonStruct expand x ++ "," ++ jsonStructList expand (y :: rest)

def jsonStructFields (expand : Nat → String) : List (String × OVal) → String
  | [] => ""
  | [(k, v)] => "\"" ++ jsonEscape k ++ "\":" ++ jsonStruct expand v
  | (k, v) :: y :: rest =>
    "\"" ++ jsonEscape k ++ "\":" ++ jsonStruct expand v ++ "," ++ jsonStructFields expand (y :: rest)
end

/-- `JSON.stringify` for output values; the fuel bounds reference chasing
(real JavaScript throws on a cyclic value, which a JSON input cannot be). -/
def jsonOfOVal (h : Heap) : Nat → OVal → String
  | 0, _ => ""
  | Nat.succ fuel, v =>
    jsonStruct (fun r => jsonOfOVal h fuel (.obj ((getObj h r).map (fun p => (p.1, ofJVal p.2))))) v

/-! ## Keyword filter -/

/-- `cleanUnsupportedKeywords` of the source: drop unsupported keys, one
warning per removal, in entry order. -/
def cleanUnsupportedKeywords : Obj → Ctx → St → Obj × St
  | [], _, st => ([], st)
  | kv :: rest, ctx, st =>
    if kv.1 ∈ UNSUPPORTED_KEYWORDS then
      cleanUnsupportedKeywords rest ctx
        (pushWarning st ("Removed unsupported keyword '" ++ kv.1 ++ "' at " ++ pathToString ctx.path))
    else
      let rec2 := cleanUnsupportedKeywords rest ctx st
      (kv :: rec2.1, rec2.2)

/-! ## Type resolution -/

/-- JavaScript `typeof` on our input values (`typeof null` is `"object"`). -/
def jsTypeof : JVal → String
  | .null => "object"
  | .bool _ => "boolean"
  | .num _ => "number"
  | .str _ => "string"
  | .arr _ => "object"
  | .obj _ => "object"

/-- `mapPrimitiveType` of the source. -/
def mapPrimitiveType (typeName : String) : String :=
  if typeName = "string" then "string"
  else if typeName = "boolean" then "boolean"
  else if typeName = "number" then "number"
  else if typeName = "bigint" then "integer"
  else if typeName = "object" then "object"
  else if typeName = "null" then "null"
  else "object"

/-- `normalizeType` of the source: validate an explicit `type` declaration. -/
def normalizeType (value : Option JVal) (ctx : Ctx) (st : St) : Option OVal × St :=
  match value with
  | none => (none, st)
  | some (.str s) =>
    if s ∈ VALID_TYPES then (some (.str s), st)
    else (none, pushError st
      ⟨.validation_error, "Unsupported type '" ++ s ++ "'", some (pathToString ctx.path)⟩)
  | some (.arr xs) =>
    let collected := dedupe (xs.filterMap (fun e => match e with
      | .str s => if s ∈ VALID_TYPES then some s else none
      | _ => none))
    match collected with
    | [] => (none, st)
    | [t] => (some (.str t), st)
    | ts => (some (.arr (ts.map OVal.str)), st)
  | some _ => (none, pushWarning st ("Discarded non-string type value at " ++ pathToString ctx.path))

/-- `inferType` of the source: structural type inference. -/
def inferType (schema : Obj) : Option OVal :=
  if isPlainObject ((fieldJ schema "properties").getD .null)
      ∨ isPlainObject ((fieldJ schema "patternProperties").getD .null)
      ∨ (fieldJ schema "additionalProperties").isSome then some (.str "object")
  else if (fieldJ schema "items").isSome then some (.str "array")
  else match fieldJ schema "enum" with
  | some (.arr (e :: es)) =>
    let types := dedupe ((e :: es).map (fun entry => match entry with
      | .null => "null"
      | v => mapPrimitiveType (jsTypeof v)))
    match types with
    | [t] => some (.str t)
    | ts => some (.arr (ts.map OVal.str))
  | _ =>
    match fieldJ schema "const" with
    | some c => some (.str (match c with
        | .null => "null"
        | v => mapPrimitiveType (jsTypeof v)))
    | none =>
      if (fieldJ schema "pattern").isSome ∨ (fieldJ schema "format").isSome
          ∨ (fieldJ schema "minLength").isSome ∨ (fieldJ schema "maxLength").isSome then
        some (.str "string")
      else if (fieldJ schema "minimum").isSome ∨ (fieldJ schema "maximum").isSome
          ∨ (fieldJ schema "exclusiveMinimum").isSome ∨ (fieldJ schema "exclusiveMaximum").isSome
          ∨ (fieldJ schema "multipleOf").isSome then
        some (.str "number")
      else if (fieldJ schema "type").isNone ∧ (fieldJ schema "default").isSome then
        match fieldJ schema "default" with
        | some d => some (.str (match d with
            | .null => "null"
            | v => mapPrimitiveType (jsTypeof v)))
        | none => none
      else none

/-- The nullable-union conversion applied in `normalizeNode` when
`nullable === true` (a scalar becomes `[T,"null"]`, an array gains `"null"`
when absent, a lone `"null"` stays `"null"`). -/
def applyNullable : Option OVal → Option OVal
  | none => none
  | some t => some (match t with
    | .str s => if s = "null" then .str "null" else .arr [.str s, .str "null"]
    | .arr xs =>
      if xs.any (fun v => match v with | .str s => s = "null" | _ => false) then .arr xs
      else .arr (xs ++ [.str "null"])
    | other => other)

/-- The conditional application of the nullable conversion
(`if (nullable && resolvedType !== undefined) ...` of the source; the
`undefined` check lives inside `applyNullable`). -/
def applyNullableIf (nullable : Bool) (t : Option OVal) : Option OVal :=
  if nullable then applyNullable t else t

/-- `typeIncludes` of the source. -/
def typeIncludes (typeValue : Option OVal) (candidate : String) : Bool :=
  match typeValue with
  | some (.str s) => s = candidate
  | some (.arr xs) => xs.any (fun v => match v with | .str s => s = candidate | _ => false)
  | _ => false

/-- JavaScript truthiness of the value of a key that may be absent. -/
def truthyField (o : OObj) (k : String) : Bool :=
  match fieldO o k with
  | some v => jsTruthy v
  | none => false

/-! ## Constraint assigners -/

/-- `copyNumericConstraint` of the source: copy when the value is a number. -/
def copyNumericConstraint (source : Obj) (target : OObj) (key : String) : OObj :=
  match fieldJ source key with
  | some (.num n) => setO target key (.num n)
  | _ => target

/-- `assignStringConstraints` of the source. -/
def assignStringConstraints (cleaned : Obj) (result : OObj) : OObj :=
  let isStringType := typeIncludes (fieldO result "type") "string"
  if ¬isStringType ∧ (fieldJ cleaned "pattern").isNone ∧ (fieldJ cleaned "format").isNone then
    result
  else
    let result := match fieldJ cleaned "pattern" with
      | some (.str s) => setO result "pattern" (.str s)
      | _ => result
    let result := match fieldJ cleaned "format" with
      | some (.str s) => setO result "format" (.str s)
      | _ => result
    let result := copyNumericConstraint cleaned result "minLength"
    copyNumericConstraint cleaned result "maxLength"

/-- `assignNumericConstraints` of the source. -/
def assignNumericConstraints (cleaned : Obj) (result : OObj) : OObj :=
  let isNumeric := typeIncludes (fieldO result "type") "number"
      ∨ typeIncludes (fieldO result "type") "integer"
  if ¬isNumeric ∧ (fieldJ cleaned "minimum").isNone ∧ (fieldJ cleaned "maximum").isNone
      ∧ (fieldJ cleaned "multipleOf").isNone then
    result
  else
    let result := copyNumericConstraint cleaned result "minimum"
    let result := copyNumericConstraint cleaned result "maximum"
    let result := copyNumericConstraint cleaned result "exclusiveMinimum"
    let result := copyNumericConstraint cleaned result "exclusiveMaximum"
    copyNumericConstraint cleaned result "multipleOf"

/-! ## Required-list reconciliation -/

/-- The property names of `Object.prototype` (Node/V8, ECMAScript including
Annex B): a plain object literal inherits all of these, so the JavaScript `in`
operator reports them as present on every plain object. -/
def OBJECT_PROTOTYPE_KEYS : List String :=
  ["constructor", "hasOwnProperty", "isPrototypeOf", "propertyIsEnumerable",
   "toLocaleString", "toString", "valueOf", "__proto__",
   "__defineGetter__", "__defineSetter__", "__lookupGetter__", "__lookupSetter__"]

/-- `key in properties` for the (always fresh plain-object)
`result.properties`: JavaScript `in` walks the prototype chain, so a key is
found when it is an own key of the object or a member of `Object.prototype`. -/
def hasKeyO : OVal → String → Bool
  | .obj entries, s => entries.any (fun p => p.1 = s) || s ∈ OBJECT_PROTOTYPE_KEYS
  | _, _ => false

/-- The entry loop of `normalizeRequiredList`, in entry order. -/
def collectRequired (props : Option OVal) (ctx : Ctx) : List JVal → St → List String × St
  | [], st => ([], st)
  | entry :: rest, st =>
    match entry with
    | .str s =>
      match props with
      | some p =>
        if hasKeyO p s then
          let rec2 := collectRequired props ctx rest st
          (s :: rec2.1, rec2.2)
        else
          collectRequired props ctx rest
            (pushWarning st ("Removed unknown required key '" ++ s ++ "' at " ++ pathToString ctx.path))
      | none =>
        let rec2 := collectRequired props ctx rest st
        (s :: rec2.1, rec2.2)
    | _ =>
      collectRequired props ctx rest
        (pushWarning st ("Ignored non-string required entry at " ++ pathToString ctx.path
          ++ ": " ++ jsStringCoerce entry))

/-- `normalizeRequiredList` of the source. -/
def normalizeRequiredList (required : Option JVal) (properties : Option OVal)
    (ctx : Ctx) (st : St) : Option (List String) × St :=
  match required with
  | none => (none, st)
  | some (.arr entries) =>
    let collected := collectRequired properties ctx entries st
    if collected.1 = [] then (none, collected.2) else (some (dedupe collected.1), collected.2)
  | some _ => (none, pushWarning st ("Discarded invalid required list at " ++ pathToString ctx.path))

/-- `inferRequiredFromProperties` of the source (normalized property values
are always fresh objects, so only the `OVal.obj` shape carries fields). -/
def inferRequiredFromProperties : OObj → List String
  | [] => []
  | (key, schema) :: rest =>
    let tail := inferRequiredFromProperties rest
    match schema with
    | .obj fields =>
      let types := fieldO fields "type"
      let typeList : List OVal := match types with
        | some (.arr xs) => xs
        | some t => if jsTruthy t then [t] else []
        | none => []
      let nullable := typeList.any (fun v => match v with | .str s => s = "null" | _ => false)
      let optional := match fieldO fields "optional" with
        | some (.bool true) => true
        | _ => false
      if (fieldO fields "default").isSome || optional || nullable then tail
      else match typeList with
        | [t] => (match t with
          | .str s => if s = "null" then tail else key :: tail
          | _ => key :: tail)
        | _ => tail
    | _ => tail

/-! ## Description generation -/

/-- Field lookup inside an output value when it is a fresh object. -/
def fieldOv (v : OVal) (k : String) : Option OVal :=
  match v with
  | .obj fields => fieldO fields k
  | _ => none

/-- Fuel that suffices for `JSON.stringify` of any acyclic value of the heap
(only reference expansion consumes it). -/
def jsonFuel (h : Heap) : Nat := h.length + 1

/-- `generateDescription` of the source. -/
def generateDescription (h : Heap) (name : String) (schema : OObj) : String :=
  let base := match fieldO schema "title" with
    | some (.str s) => if s ≠ "" then s else name
    | _ => name
  let humanised := humanizeName base
  let rawType := fieldO schema "type"
  let types : List OVal := match rawType with
    | some (.arr xs) => xs
    | some t => if jsTruthy t then [t] else []
    | none => []
  match fieldO schema "enum" with
  | some (.arr (e :: es)) =>
    humanised ++ ". Allowed values: " ++ joinSepO ", " (e :: es) ++ "."
  | _ =>
    match fieldO schema "const" with
    | some c => humanised ++ ". Must equal " ++ jsonOfOVal h (jsonFuel h) c ++ "."
    | none =>
      match fieldO schema "format" with
      | some (.str fs) =>
        if fs ≠ "" then humanised ++ " in " ++ fs ++ " format."
        else generateDescriptionTail humanised types schema
      | _ => generateDescriptionTail humanised types schema
where
  generateDescriptionTail (humanised : String) (types : List OVal)
      (schema : OObj) : String :=
    match fieldO schema "pattern" with
    | some (.str ps) =>
      if ps ≠ "" then humanised ++ " matching pattern " ++ ps ++ "."
      else generateDescriptionLast humanised types schema
    | _ => generateDescriptionLast humanised types schema
  generateDescriptionLast (humanised : String) (types : List OVal) (schema : OObj) : String :=
    match fieldO schema "items" with
    | some items =>
      if (types.any (fun v => match v with | .str s => s = "array" | _ => false))
          ∧ jsTruthy items ∧ isPlainObjectO items then
        let itemType : String := match fieldOv items "type" with
          | some (.arr xs) => joinSepO " or " xs
          | some t => if jsTruthy t then jsStringCoerceO t else "items"
          | none => "items"
        "Array of " ++ humanizeName itemType ++ " for " ++ humanised ++ "."
      else if ¬ types.isEmpty then humanised ++ " (" ++ joinSepO " or " types ++ ")."
      else humanised ++ "."
    | none =>
      if ¬ types.isEmpty then humanised ++ " (" ++ joinSepO " or " types ++ ")."
      else humanised ++ "."

/-- `ensureDescription` of the source. -/
def ensureDescription (h : Heap) (schema : OObj) (ctx : Ctx) : OObj :=
  if ¬ctx.options.generateDescriptions then schema
  else
    let description := match fieldO schema "description" with
      | some (.str s) => jsTrim s
      | _ => ""
    if description ≠ "" then setO schema "description" (.str description)
    else
      let hint : Option String := match ctx.hint with
        | some hv => some hv
        | none => match fieldO schema "title" with
          | some (.str s) => some s
          | _ => ctx.path.getLast?
      match hint with
      | none => schema
      | some hs =>
        if hs = "" then schema
        else setO schema "description" (.str (generateDescription h hs schema))

/-- `generateFunctionDescription` of the source. -/
def generateFunctionDescription (name : String) : String :=
  "Execute " ++ humanizeName name ++ "."

/-! ## The recursive normalizer -/

/-- The function type of a node normalizer (one fuel level of `normalizeNode`). -/
abbrev Normalizer := JVal → Ctx → St → OVal × St

/-- The fallback node `{ type: "object" }` substituted by every guard. -/
def fallbackNode : OVal := .obj [("type", .str "object")]

/-- `items` entries when `items` is an array of schemas (`items[i]` path segments). -/
def normalizeItemsList (norm : Normalizer) (ctx : Ctx) : Nat → List JVal → St → List OVal × St
  | _, [], st => ([], st)
  | i, x :: xs, st =>
    let one := norm x (childContext ctx ("items[" ++ toString i ++ "]") none) st
    let rest := normalizeItemsList norm ctx (i + 1) xs one.2
    (one.1 :: rest.1, rest.2)

/-- The `properties` entry loop of `assignObjectConstraints` (child context uses
the key as both segment and hint). -/
def normalizeProperties (norm : Normalizer) (ctx : Ctx) : Obj → St → OObj × St
  | [], st => ([], st)
  | (key, value) :: rest, st =>
    let one := norm value (childContext ctx key (some key)) st
    let more := normalizeProperties norm ctx rest one.2
    ((key, one.1) :: more.1, more.2)

/-- The `patternProperties` entry loop of `assignObjectConstraints`. -/
def normalizePatternProperties (norm : Normalizer) (ctx : Ctx) : Obj → St → OObj × St
  | [], st => ([], st)
  | (pattern, value) :: rest, st =>
    let one := norm value
      (childContext ctx ("patternProperties[" ++ pattern ++ "]") (some pattern)) st
    let more := normalizePatternProperties norm ctx rest one.2
    ((pattern, one.1) :: more.1, more.2)

/-- `assignArrayConstraints` of the source. -/
def assignArrayConstraints (norm : Normalizer) (cleaned : Obj) (result : OObj)
    (ctx : Ctx) (st : St) : OObj × St :=
  let isArray := typeIncludes (fieldO result "type") "array"
  if ¬isArray ∧ (fieldJ cleaned "items").isNone ∧ (fieldJ cleaned "minItems").isNone
      ∧ (fieldJ cleaned "maxItems").isNone then
    (result, st)
  else
    let step1 : OObj × St := match fieldJ cleaned "items" with
      | some (.arr xs) =>
        let os := normalizeItemsList norm ctx 0 xs st
        (setO result "items" (.arr os.1), os.2)
      | some item =>
        let o := norm item (childContext ctx "items" none) st
        (setO result "items" o.1, o.2)
      | none =>
        if isArray ∧ (fieldO result "items").isNone then
          (setO result "items" (.obj [("type", .str "object")]), st)
        else (result, st)
    let result := step1.1
    let st := step1.2
    let result := copyNumericConstraint cleaned result "minItems"
    let result := copyNumericConstraint cleaned result "maxItems"
    let result := match fieldJ cleaned "uniqueItems" with
      | some (.bool b) => setO result "uniqueItems" (.bool b)
      | _ => result
    match fieldJ cleaned "contains" with
    | some c =>
      let o := norm c (childContext ctx "contains" none) st
      (setO result "contains" o.1, o.2)
    | none => (result, st)

/-- `assignObjectConstraints` of the source. -/
def assignObjectConstraints (h : Heap) (norm : Normalizer) (cleaned : Obj) (result : OObj)
    (ctx : Ctx) (st : St) : OObj × St :=
  let isObject := typeIncludes (fieldO result "type") "object" ∨ ¬ truthyField result "type"
  if ¬isObject ∧ (fieldJ cleaned "properties").isNone then
    if (fieldJ cleaned "required").isSome then
      (result, pushWarning st ("Ignoring 'required' at " ++ pathToString ctx.path
        ++ " because schema is not an object"))
    else (result, st)
  else
    let step1 : OObj × St := match fieldJ cleaned "properties" with
      | none => (result, st)
      | some (.obj pr) =>
        let entries := normalizeProperties norm ctx (getObj h pr) st
        (setO result "properties" (.obj entries.1), entries.2)
      | some _ =>
        (result, pushError st ⟨.invalid_schema, "properties must be an object",
          some (pathToString (ctx.path ++ ["properties"]))⟩)
    let result := step1.1
    let st := step1.2
    let step2 : OObj × St := match fieldJ cleaned "patternProperties" with
      | none => (result, st)
      | some (.obj pr) =>
        let entries := normalizePatternProperties norm ctx (getObj h pr) st
        (setO result "patternProperties" (.obj entries.1), entries.2)
      | some _ =>
        (result, pushError st ⟨.invalid_schema, "patternProperties must be an object",
          some (pathToString (ctx.path ++ ["patternProperties"]))⟩)
    let result := step2.1
    let st := step2.2
    let step3 : OObj × St := match fieldJ cleaned "additionalProperties" with
      | some (.bool b) => (setO result "additionalProperties" (.bool b), st)
      | some (.obj ar) =>
        let o := norm (.obj ar) (childContext ctx "additionalProperties" none) st
        (setO result "additionalProperties" o.1, o.2)
      | _ => (result, st)
    let result := step3.1
    let st := step3.2
    let result := copyNumericConstraint cleaned result "minProperties"
    let result := copyNumericConstraint cleaned result "maxProperties"
    let step4 := normalizeRequiredList (fieldJ cleaned "required")
      (fieldO result "properties") ctx st
    let required := step4.1
    let st := step4.2
    match required with
    | some req =>
      if ¬ req.isEmpty then (setO result "required" (.arr (req.map OVal.str)), st)
      else (result, st)
    | none =>
      if ctx.options.inferRequired then
        match fieldO result "properties" with
        | some (.obj entries) =>
          if ¬ entries.isEmpty then
            let inferred := inferRequiredFromProperties entries
            if ¬ inferred.isEmpty then
              (setO result "required" (.arr (inferred.map OVal.str)), st)
            else (result, st)
          else (result, st)
        | _ => (result, st)
      else (result, st)

/-- The straight-line head of the `normalizeNode` body (source lines up to the
string/numeric constraint assigners): resolve the (nullable-adjusted) type and
copy `title`, `description`, `enum`, `const` and the string/numeric
constraints into a fresh result object.  `resolvedType` is the type after the
nullable conversion; `cleaned` is the node already stripped of unsupported
keywords and of `nullable`. -/
def preResult (cleaned : Obj) (resolvedType : Option OVal) : OObj :=
  let result : OObj := []
  let result := match resolvedType with
    | some t => setO result "type" t
    | none => result
  let result := match fieldJ cleaned "title" with
    | some (.str s) => if jsTrim s ≠ "" then setO result "title" (.str (jsTrim s)) else result
    | _ => result
  let result := match fieldJ cleaned "description" with
    | some (.str s) =>
      if jsTrim s ≠ "" then setO result "description" (.str (jsTrim s)) else result
    | _ => result
  let result := match fieldJ cleaned "enum" with
    | some (.arr xs) =>
      let dedupedValues := dedupe xs
      if ¬ dedupedValues.isEmpty then setO result "enum" (.arr (ofJValList dedupedValues))
      else result
    | _ => result
  let result := match fieldJ cleaned "const" with
    | some c => setO result "const" (ofJVal c)
    | none => result
  let result := assignStringConstraints cleaned result
  assignNumericConstraints cleaned result

/-- The tail of the `normalizeNode` body (source lines after the object
constraints): force `type` to `object`/`array` from the built structure when
none was resolved, then synthesize a description. -/
def finishResult (h : Heap) (ctx : Ctx) (result : OObj) : OObj :=
  let result := if ¬ truthyField result "type"
      ∧ (truthyField result "properties" ∨ truthyField result "additionalProperties") then
    setO result "type" (.str "object") else result
  let result := if ¬ truthyField result "type" ∧ truthyField result "items" then
    setO result "type" (.str "array") else result
  ensureDescription h result ctx

/-- The body of `normalizeNode` of the source, with the recursive calls
abstracted as `norm` (they receive one fuel level less in `normalizeNode`). -/
def normalizeNodeStep (h : Heap) (norm : Normalizer) (schema : JVal) (ctx : Ctx)
    (st : St) : OVal × St :=
  match schema with
    | .obj r =>
      if ctx.depth ≥ ctx.options.maxDepth then
        (fallbackNode, pushError st
          ⟨.max_depth_exceeded,
            "Maximum depth of " ++ toString ctx.options.maxDepth ++ " exceeded",
            some (pathToString ctx.path)⟩)
      else if r ∈ st.seen then
        (fallbackNode, pushError st
          ⟨.circular_reference, "Circular reference detected", some (pathToString ctx.path)⟩)
      else
        let st := { st with seen := r :: st.seen }
        let cleanedStep := cleanUnsupportedKeywords (getObj h r) ctx st
        let cleaned := cleanedStep.1
        let st := cleanedStep.2
        let nullable := match fieldJ cleaned "nullable" with
          | some (.bool true) => true
          | _ => false
        let typeStep := normalizeType (fieldJ cleaned "type") ctx st
        let explicitType := typeStep.1
        let st := typeStep.2
        let resolvedType := match explicitType with
          | some t => some t
          | none => inferType cleaned
        let resolvedType := applyNullableIf nullable resolvedType
        let cleaned := cleaned.filter (fun p => p.1 ≠ "nullable")
        let result := preResult cleaned resolvedType
        let arrayStep := assignArrayConstraints norm cleaned result ctx st
        let objectStep := assignObjectConstraints h norm cleaned arrayStep.1 ctx arrayStep.2
        (.obj (finishResult h ctx objectStep.1), objectStep.2)
    | _ =>
      (fallbackNode, pushError st
        ⟨.invalid_schema, "Expected schema object", some (pathToString ctx.path)⟩)

/-- `normalizeNode` of the source.  The fuel only bounds the recursion; the
entry point supplies `maxDepth + 1` fuel, and since every descent increments
`ctx.depth` and the depth guard trips at `maxDepth`, the fuel-zero branch is
unreachable from the entry point. -/
def normalizeNode (h : Heap) : Nat → JVal → Ctx → St → OVal × St
  | 0, _, _, st => (fallbackNode, st)
  | Nat.succ fuel, schema, ctx, st => normalizeNodeStep h (normalizeNode h fuel) schema ctx st

/-- `NormalizationResult` of the source. -/
structure NormalizationResult where
  schema : OVal
  errors : List NErr
  warnings : List String
deriving Repr

/-- `normalizeSchema` of the source. -/
def normalizeSchema (h : Heap) (schema : JVal) (config : NormalizationConfig) :
    NormalizationResult :=
  let options := resolveConfig config
  let ctx : Ctx := { path := [], depth := 0, options := options, hint := none }
  let st : St := { seen := [], errors := [], warnings := [] }
  let res := normalizeNode h (options.maxDepth + 1) schema ctx st
  { schema := res.1, errors := res.2.errors, warnings := res.2.warnings }

/-! ## Tool-declaration batch normalizer -/

/-- `NormalizedToolsResult` of the source. -/
structure NormalizedToolsResult where
  tools : List OVal
  errors : List NErr
  warnings : List String
deriving Repr

/-- The path prefix attached to diagnostics of a declaration's `parameters`. -/
def paramPrefix (toolIndex declIndex : Nat) : String :=
  "tools[" ++ toString toolIndex ++ "].function_declarations["
    ++ toString declIndex ++ "].parameters"

/-- One function declaration inside `normalizeTools`. -/
def normalizeDeclaration (h : Heap) (options : ROptions) (toolIndex declIndex : Nat)
    (declaration : JVal) : OVal × List NErr × List String :=
  match declaration with
  | .obj dr =>
    let o0 : OObj := (getObj h dr).map (fun p => (p.1, ofJVal p.2))
    let functionName := match fieldO o0 "name" with
      | some (.str s) => s
      | _ => "function_" ++ toString declIndex
    let o1 := setO o0 "name" (.str functionName)
    let o2 := if options.generateDescriptions then
        let rawDescription := match fieldO o1 "description" with
          | some (.str s) => jsTrim s
          | _ => ""
        if rawDescription = "" then
          setO o1 "description" (.str (generateFunctionDescription functionName))
        else setO o1 "description" (.str rawDescription)
      else o1
    match fieldJ (getObj h dr) "parameters" with
    | some pv =>
      let res := normalizeSchema h pv (toConfig options)
      (.obj (setO o2 "parameters" res.schema),
       res.errors.map (fun e => { e with path := some (prependPath (paramPrefix toolIndex declIndex) e.path) }),
       res.warnings.map (fun w => "tools[" ++ toString toolIndex ++ "].function_declarations["
         ++ toString declIndex ++ "]: " ++ w))
    | none => (.obj o2, [], [])
  | _ =>
    (ofJVal declaration,
     [⟨.invalid_schema, "Function declaration must be an object",
       some ("tools[" ++ toString toolIndex ++ "].function_declarations["
         ++ toString declIndex ++ "]")⟩],
     [])

/-- The declaration loop of `normalizeTools`. -/
def normalizeDeclarations (h : Heap) (options : ROptions) (toolIndex : Nat) :
    Nat → List JVal → List OVal × List NErr × List String
  | _, [] => ([], [], [])
  | j, d :: ds =>
    let one := normalizeDeclaration h options toolIndex j d
    let more := normalizeDeclarations h options toolIndex (j + 1) ds
    (one.1 :: more.1, one.2.1 ++ more.2.1, one.2.2 ++ more.2.2)

/-- Whether a tool object carries an array-valued `function_declarations`. -/
def hasDeclarationsArray (o : Obj) : Bool :=
  match fieldJ o "function_declarations" with
  | some (.arr _) => true
  | _ => false

/-- One tool entry inside `normalizeTools`. -/
def normalizeToolEntry (h : Heap) (options : ROptions) (toolIndex : Nat) (tool : JVal) :
    OVal × List NErr × List String :=
  match tool with
  | .obj r =>
    let o := getObj h r
    let normalizedTool : OObj := o.map (fun p => (p.1, ofJVal p.2))
    match fieldJ o "function_declarations" with
    | some (.arr declarations) =>
      let res := normalizeDeclarations h options toolIndex 0 declarations
      (.obj (setO normalizedTool "function_declarations" (.arr res.1)), res.2.1, res.2.2)
    | _ => (.obj normalizedTool, [], [])
  | _ =>
    (ofJVal tool,
     [⟨.invalid_schema, "Tool entry must be an object",
       some ("tools[" ++ toString toolIndex ++ "]")⟩],
     [])

/-- The tool loop of `normalizeTools`. -/
def normalizeToolsList (h : Heap) (options : ROptions) :
    Nat → List JVal → List OVal × List NErr × List String
  | _, [] => ([], [], [])
  | i, t :: ts =>
    let one := normalizeToolEntry h options i t
    let more := normalizeToolsList h options (i + 1) ts
    (one.1 :: more.1, one.2.1 ++ more.2.1, one.2.2 ++ more.2.2)

/-- `normalizeTools` of the source. -/
def normalizeTools (h : Heap) (tools : JVal) (config : NormalizationConfig) :
    NormalizedToolsResult :=
  let options := resolveConfig config
  match tools with
  | .arr ts =>
    let res := normalizeToolsList h options 0 ts
    { tools := res.1, errors := res.2.1, warnings := res.2.2 }
  | _ =>
    { tools := [],
      errors := [⟨.invalid_schema, "Tools payload must be an array", some "tools"⟩],
      warnings := [] }

/-! ## Feeding an output back in (for the idempotence claim) -/

mutual
/-- Materialize an output value as an input value: fresh output objects are
allocated at the end of the heap (this models handing the result object of one
call to a second call). -/
def allocOVal (h : Heap) : OVal → JVal × Heap
  | .null => (.null, h)
  | .bool b => (.bool b, h)
  | .num n => (.num n, h)
  | .str s => (.str s, h)
  | .jref r => (.obj r, h)
  | .arr xs =>
    let ys := allocOValList h xs
    (.arr ys.1, ys.2)
  | .obj fields =>
    let fs := allocOFields h fields
    (.obj fs.2.length, fs.2 ++ [fs.1])

def allocOValList (h : Heap) : List OVal → List JVal × Heap
  | [] => ([], h)
  | x :: xs =>
    let y := allocOVal h x
    let ys := allocOValList y.2 xs
    (y.1 :: ys.1, ys.2)

def allocOFields (h : Heap) : List (String × OVal) → Obj × Heap
  | [] => ([], h)
  | (k, v) :: rest =>
    let y := allocOVal h v
    let ys := allocOFields y.2 rest
    ((k, y.1) :: ys.1, ys.2)
end

/-! ## Concrete inputs used by counterexamples and witnesses -/

/-- A heap in which the object `#1` (`{type:"string"}`, plainly acyclic: it
contains no references) is referenced from the two sibling properties `a` and
`b` of the root `#0`; `#2` is the `properties` container object. -/
def sharedSiblingHeap : Heap :=
  [[("type", .str "object"), ("properties", .obj 2)],
   [("type", .str "string")],
   [("a", .obj 1), ("b", .obj 1)]]

/-- `{type:"object", properties:{bad:5, good:{type:"string"}}}`: one malformed
property subtree next to a well-formed sibling. -/
def badSiblingHeap : Heap :=
  [[("type", .str "object"), ("properties", .obj 1)],
   [("bad", .num 5), ("good", .obj 2)],
   [("type", .str "string")]]

/-- `{type:"number", pattern:5, minLength:2}`: `minLength` is copied on the
first pass only because the (non-string-valued) gate keyword `pattern` is
present; the output has no such gate, so a second pass drops `minLength`. -/
def gateDropHeap : Heap :=
  [[("type", .str "number"), ("pattern", .num 5), ("minLength", .num 2)]]

/-! ## Guard lemmas for `normalizeNode` -/

set_option maxHeartbeats 1000000 in
theorem normalizeNode_nonobject (h : Heap) (fuel : Nat) (v : JVal) (ctx : Ctx) (st : St)
    (hv : isPlainObject v = false) :
    normalizeNode h (fuel + 1) v ctx st =
      (fallbackNode, pushError st
        ⟨.invalid_schema, "Expected schema object", some (pathToString ctx.path)⟩) := by
  cases v
  case obj r => simp [isPlainObject] at hv
  all_goals simp only [normalizeNode]
  all_goals rfl

theorem normalizeNode_depth (h : Heap) (fuel : Nat) (r : Nat) (ctx : Ctx) (st : St)
    (hd : ctx.options.maxDepth ≤ ctx.depth) :
    normalizeNode h (fuel + 1) (.obj r) ctx st =
      (fallbackNode, pushError st
        ⟨.max_depth_exceeded,
          "Maximum depth of " ++ toString ctx.options.maxDepth ++ " exceeded",
          some (pathToString ctx.path)⟩) := by
  simp only [normalizeNode, normalizeNodeStep]
  rw [if_pos hd]

theorem normalizeNode_circular (h : Heap) (fuel : Nat) (r : Nat) (ctx : Ctx) (st : St)
    (hd : ctx.depth < ctx.options.maxDepth) (hs : r ∈ st.seen) :
    normalizeNode h (fuel + 1) (.obj r) ctx st =
      (fallbackNode, pushError st
        ⟨.circular_reference, "Circular reference detected", some (pathToString ctx.path)⟩) := by
  simp only [normalizeNode, normalizeNodeStep]
  rw [if_neg (by omega), if_pos hs]

/-! ## Counterexamples -/

/-- Claim C1 is false on the code: in `sharedSiblingHeap` the object `#1` is
reachable from the two sibling properties `a` and `b` of the root but not from
itself (it contains no references at all), yet the call emits a
`circular_reference` diagnostic (at the second sibling, path `b`): `visited`
membership is never removed on ascent. -/
theorem C1_counterexample :
    (normalizeSchema sharedSiblingHeap (.obj 0) {}).errors =
      [⟨.circular_reference, "Circular reference detected", some "b"⟩] := by rfl

/-- Claim C9 is false on the code: normalizing `{type:"number", pattern:5,
minLength:2}` keeps `minLength` (the presence of the `pattern` key opens the
string-constraint gate even though its value is not a string, so it is not
copied itself), but feeding the output back in drops `minLength` (no gate key
remains), so the two schemas differ byte-for-byte under JSON serialization. -/
theorem C9_counterexample :
    (let r1 := normalizeSchema gateDropHeap (.obj 0) {}
     let p := allocOVal gateDropHeap r1.schema
     let r2 := normalizeSchema p.2 p.1 {}
     jsonOfOVal p.2 (jsonFuel p.2) r2.schema ≠
       jsonOfOVal gateDropHeap (jsonFuel gateDropHeap) r1.schema) := by decide

/-- C6: `normalizeSchema` always returns a `{schema, errors, warnings}` result
(the embedding is a total function), and each of the three guards of
`normalizeNode` — non-object node, `depth >= maxDepth`, node already in the
open `visited` set — replaces only the offending subtree with the fallback
`{type:"object"}` and appends exactly one diagnostic of the corresponding kind
(`invalid_schema`, `max_depth_exceeded`, `circular_reference`); sibling
subtrees are normalized normally, as the concrete instance shows: property
`bad` (the number `5`) collapses to the fallback with one `invalid_schema`
diagnostic while its sibling `good` is normalized in full. -/
theorem C6_guarded_fallbacks :
    (∀ (h : Heap) (fuel : Nat) (v : JVal) (ctx : Ctx) (st : St), isPlainObject v = false →
        normalizeNode h (fuel + 1) v ctx st =
          (fallbackNode, pushError st
            ⟨.invalid_schema, "Expected schema object", some (pathToString ctx.path)⟩))
    ∧ (∀ (h : Heap) (fuel r : Nat) (ctx : Ctx) (st : St), ctx.options.maxDepth ≤ ctx.depth →
        normalizeNode h (fuel + 1) (.obj r) ctx st =
          (fallbackNode, pushError st
            ⟨.max_depth_exceeded,
              "Maximum depth of " ++ toString ctx.options.maxDepth ++ " exceeded",
              some (pathToString ctx.path)⟩))
    ∧ (∀ (h : Heap) (fuel r : Nat) (ctx : Ctx) (st : St),
        ctx.depth < ctx.options.maxDepth → r ∈ st.seen →
        normalizeNode h (fuel + 1) (.obj r) ctx st =
          (fallbackNode, pushError st
            ⟨.circular_reference, "Circular reference detected", some (pathToString ctx.path)⟩))
    ∧ normalizeSchema badSiblingHeap (.obj 0) {} =
        ⟨.obj [("type", .str "object"),
               ("properties", .obj
                 [("bad", .obj [("type", .str "object")]),
                  ("good", .obj [("type", .str "string"),
                                 ("description", .str "Good (string).")])]),
               ("required", .arr [.str "bad", .str "good"])],
         [⟨.invalid_schema, "Expected schema object", some "bad"⟩],
         []⟩ :=
  ⟨normalizeNode_nonobject, normalizeNode_depth, normalizeNode_circular, by rfl⟩

/-- Witness for C6: the three guards evaluated at concrete inputs. -/
theorem C6_guarded_fallbacks_witness :
    normalizeNode [] 1 (.num 3) ⟨[], 0, DEFAULT_CONFIG, none⟩ ⟨[], [], []⟩ =
      (fallbackNode, pushError ⟨[], [], []⟩
        ⟨.invalid_schema, "Expected schema object", some (pathToString [])⟩)
    ∧ normalizeNode [] 1 (.obj 0) ⟨[], 5, ⟨3, true, true⟩, none⟩ ⟨[], [], []⟩ =
      (fallbackNode, pushError ⟨[], [], []⟩
        ⟨.max_depth_exceeded, "Maximum depth of " ++ toString 3 ++ " exceeded",
          some (pathToString [])⟩)
    ∧ normalizeNode [] 1 (.obj 0) ⟨[], 0, DEFAULT_CONFIG, none⟩ ⟨[0], [], []⟩ =
      (fallbackNode, pushError ⟨[0], [], []⟩
        ⟨.circular_reference, "Circular reference detected", some (pathToString [])⟩) :=
  ⟨C6_guarded_fallbacks.1 [] 0 (.num 3) _ _ (by decide),
   C6_guarded_fallbacks.2.1 [] 0 0 _ _ (by decide),
   C6_guarded_fallbacks.2.2.1 [] 0 0 _ _ (by decide) (by decide)⟩

/-- The single-keyword schema `{type: t}` as a one-object heap. -/
def plainTypedHeap (t : String) : Heap := [[("type", JVal.str t)]]

/-- First normalization of `{type: t}`. -/
def plainTypedFirst (t : String) : NormalizationResult :=
  normalizeSchema (plainTypedHeap t) (.obj 0) {}

/-- Second normalization: the first output is materialized on the heap and
normalized again with the same (default) options. -/
def plainTypedSecond (t : String) : NormalizationResult :=
  normalizeSchema (allocOVal (plainTypedHeap t) (plainTypedFirst t).schema).2
    (allocOVal (plainTypedHeap t) (plainTypedFirst t).schema).1 {}

/-- C9 (amended): `normalizeSchema` is not idempotent in general —
`C9_counterexample` renormalizes an output and obtains a byte-for-byte
different schema, because constraint keys can be copied under a gate keyword
of the wrong runtime type that is itself dropped, and generated descriptions
can be added to nodes the first pass created literally.  Idempotence does hold
for already-normalized plain typed nodes: for every valid non-array type name
`t`, normalizing `{type: t}` returns it unchanged with no warnings, and
feeding the result back in returns the identical schema and no new warnings. -/
theorem C9_idempotent_on_plain_typed_nodes (t : String)
    (ht : t ∈ ["null", "boolean", "object", "number", "string", "integer"]) :
    (plainTypedFirst t).schema = .obj [("type", .str t)]
    ∧ (plainTypedFirst t).warnings = []
    ∧ (plainTypedSecond t).schema = (plainTypedFirst t).schema
    ∧ (plainTypedSecond t).warnings = [] := by
  simp only [List.mem_cons, List.not_mem_nil, or_false] at ht
  rcases ht with rfl | rfl | rfl | rfl | rfl | rfl <;>
    exact ⟨by decide, by decide, by decide, by decide⟩

/-- Witness for the amended C9 at `t = "string"`. -/
theorem C9_idempotent_on_plain_typed_nodes_witness :
    (plainTypedFirst "string").schema = .obj [("type", .str "string")]
    ∧ (plainTypedFirst "string").warnings = []
    ∧ (plainTypedSecond "string").schema = (plainTypedFirst "string").schema
    ∧ (plainTypedSecond "string").warnings = [] :=
  C9_idempotent_on_plain_typed_nodes "string" (by decide)

/-! ## Lemmas about the batch normalizer -/

theorem normalizeToolsList_tools_get (h : Heap) (o : ROptions) :
    ∀ (ts : List JVal) (k i : Nat) (t : JVal), ts.get? i = some t →
      (normalizeToolsList h o k ts).1.get? i = some (normalizeToolEntry h o (k + i) t).1 := by
  intro ts
  induction ts with
  | nil => intro k i t hi; simp at hi
  | cons x xs ih =>
    intro k i t hi
    cases i with
    | zero =>
      simp only [List.get?_cons_zero, Option.some.injEq] at hi
      subst hi
      simp [normalizeToolsList]
    | succ n =>
      simp only [List.get?_cons_succ] at hi
      have hx := ih (k + 1) n t hi
      have ha : k + 1 + n = k + (n + 1) := by omega
      rw [ha] at hx
      simp only [normalizeToolsList, List.get?_cons_succ]
      exact hx

theorem normalizeToolsList_errors_get (h : Heap) (o : ROptions) :
    ∀ (ts : List JVal) (k i : Nat) (t : JVal), ts.get? i = some t →
      ∃ pre post, (normalizeToolsList h o k ts).2.1 =
        pre ++ (normalizeToolEntry h o (k + i) t).2.1 ++ post := by
  intro ts
  induction ts with
  | nil => intro k i t hi; simp at hi
  | cons x xs ih =>
    intro k i t hi
    cases i with
    | zero =>
      simp only [List.get?_cons_zero, Option.some.injEq] at hi
      subst hi
      exact ⟨[], (normalizeToolsList h o (k + 1) xs).2.1, by simp [normalizeToolsList]⟩
    | succ n =>
      simp only [List.get?_cons_succ] at hi
      obtain ⟨pre, post, hp⟩ := ih (k + 1) n t hi
      refine ⟨(normalizeToolEntry h o k x).2.1 ++ pre, post, ?_⟩
      simp only [normalizeToolsList]
      rw [hp]
      have : k + 1 + n = k + (n + 1) := by omega
      rw [this]
      simp [List.append_assoc]

theorem normalizeDeclarations_errors_get (h : Heap) (o : ROptions) (ti : Nat) :
    ∀ (ds : List JVal) (k j : Nat) (d : JVal), ds.get? j = some d →
      ∃ pre post, (normalizeDeclarations h o ti k ds).2.1 =
        pre ++ (normalizeDeclaration h o ti (k + j) d).2.1 ++ post := by
  intro ds
  induction ds with
  | nil => intro k j d hj; simp at hj
  | cons x xs ih =>
    intro k j d hj
    cases j with
    | zero =>
      simp only [List.get?_cons_zero, Option.some.injEq] at hj
      subst hj
      exact ⟨[], (normalizeDeclarations h o ti (k + 1) xs).2.1, by simp [normalizeDeclarations]⟩
    | succ n =>
      simp only [List.get?_cons_succ] at hj
      obtain ⟨pre, post, hp⟩ := ih (k + 1) n d hj
      refine ⟨(normalizeDeclaration h o ti k x).2.1 ++ pre, post, ?_⟩
      simp only [normalizeDeclarations]
      rw [hp]
      have : k + 1 + n = k + (n + 1) := by omega
      rw [this]
      simp [List.append_assoc]

theorem normalizeToolEntry_errors (h : Heap) (o : ROptions) (ti r : Nat) (ds : List JVal)
    (hd : fieldJ (getObj h r) "function_declarations" = some (.arr ds)) :
    (normalizeToolEntry h o ti (.obj r)).2.1 = (normalizeDeclarations h o ti 0 ds).2.1 := by
  simp only [normalizeToolEntry]
  rw [hd]

theorem normalizeDeclaration_params_errors (h : Heap) (o : ROptions) (ti tj dr : Nat)
    (pv : JVal) (hp : fieldJ (getObj h dr) "parameters" = some pv) :
    (normalizeDeclaration h o ti tj (.obj dr)).2.1 =
      (normalizeSchema h pv (toConfig o)).errors.map
        (fun e => { e with path := some (prependPath (paramPrefix ti tj) e.path) }) := by
  simp only [normalizeDeclaration]
  rw [hp]

theorem prependPath_eq_append (p : String) (s : Option String) :
    ∃ q, prependPath p s = p ++ q := by
  cases s with
  | none => exact ⟨"", by simp [prependPath]⟩
  | some s =>
    by_cases hc : s = "" ∨ s = "root"
    · exact ⟨"", by simp [prependPath, hc]⟩
    · exact ⟨"." ++ s, by simp [prependPath, hc, String.append_assoc]⟩

/-- C8: `normalizeTools` on any non-array input returns an empty tools list,
exactly one `invalid_schema` diagnostic and no warnings; and for every array
input, the diagnostics produced by normalizing a declaration's `parameters`
schema all appear in the batch result, each with its path carrying the prefix
`tools[i].function_declarations[j].parameters` of the originating tool and
declaration indices. -/
theorem C8_batch_diagnostics :
    (∀ (h : Heap) (v : JVal) (cfg : NormalizationConfig), isJsArray v = false →
        normalizeTools h v cfg =
          ⟨[], [⟨.invalid_schema, "Tools payload must be an array", some "tools"⟩], []⟩)
    ∧ (∀ (h : Heap) (cfg : NormalizationConfig) (ts : List JVal) (i r : Nat)
        (ds : List JVal) (j dr : Nat) (pv : JVal),
        ts.get? i = some (.obj r) →
        fieldJ (getObj h r) "function_declarations" = some (.arr ds) →
        ds.get? j = some (.obj dr) →
        fieldJ (getObj h dr) "parameters" = some pv →
        ∃ pre post,
          (normalizeTools h (.arr ts) cfg).errors =
            pre ++ ((normalizeSchema h pv (toConfig (resolveConfig cfg))).errors.map
              (fun e => { e with path := some (prependPath (paramPrefix i j) e.path) })) ++ post
          ∧ ∀ e ∈ ((normalizeSchema h pv (toConfig (resolveConfig cfg))).errors.map
              (fun e => { e with path := some (prependPath (paramPrefix i j) e.path) })),
              ∃ q, e.path = some (paramPrefix i j ++ q)) := by
  constructor
  · intro h v cfg hv
    cases v <;> first | rfl | simp [isJsArray] at hv
  · intro h cfg ts i r ds j dr pv hi hd hj hp
    obtain ⟨pre1, post1, h1⟩ := normalizeToolsList_errors_get h (resolveConfig cfg) ts 0 i _ hi
    rw [Nat.zero_add] at h1
    rw [normalizeToolEntry_errors h (resolveConfig cfg) i r ds hd] at h1
    obtain ⟨pre2, post2, h2⟩ := normalizeDeclarations_errors_get h (resolveConfig cfg) i ds 0 j _ hj
    rw [Nat.zero_add] at h2
    rw [normalizeDeclaration_params_errors h (resolveConfig cfg) i j dr pv hp] at h2
    refine ⟨pre1 ++ pre2, post2 ++ post1, ?_, ?_⟩
    · have hb : (normalizeTools h (.arr ts) cfg).errors =
          (normalizeToolsList h (resolveConfig cfg) 0 ts).2.1 := rfl
      rw [hb, h1, h2]
      simp [List.append_assoc]
    · intro e he
      simp only [List.mem_map] at he
      obtain ⟨e0, _, rfl⟩ := he
      obtain ⟨q, hq⟩ := prependPath_eq_append (paramPrefix i j) e0.path
      exact ⟨q, by simp [hq]⟩

/-- Witness for C8: a tool whose declaration has the non-object `parameters`
value `5`, and the non-array input `null`. -/
theorem C8_batch_diagnostics_witness :
    normalizeTools [] .null {} =
      ⟨[], [⟨.invalid_schema, "Tools payload must be an array", some "tools"⟩], []⟩
    ∧ (∃ pre post,
        (normalizeTools [[("function_declarations", .arr [.obj 1])], [("parameters", .num 5)]]
            (.arr [.obj 0]) {}).errors =
          pre ++ ((normalizeSchema [[("function_declarations", .arr [.obj 1])], [("parameters", .num 5)]]
              (.num 5) (toConfig (resolveConfig {}))).errors.map
            (fun e => { e with path := some (prependPath (paramPrefix 0 0) e.path) })) ++ post
        ∧ ∀ e ∈ ((normalizeSchema [[("function_declarations", .arr [.obj 1])], [("parameters", .num 5)]]
              (.num 5) (toConfig (resolveConfig {}))).errors.map
            (fun e => { e with path := some (prependPath (paramPrefix 0 0) e.path) })),
            ∃ q, e.path = some (paramPrefix 0 0 ++ q)) :=
  ⟨C8_batch_diagnostics.1 [] .null {} (by decide),
   C8_batch_diagnostics.2 _ {} [.obj 0] 0 0 [.obj 1] 0 1 (.num 5)
     (by decide) (by decide) (by decide) (by decide)⟩

/-- C10: an object-shaped tool entry whose `function_declarations` is missing
or not an array is returned as a shallow copy of itself with all keys
unchanged, and it contributes no errors and no warnings; correspondingly, in
the batch result the entry at its index is exactly that shallow copy. -/
theorem C10_tool_passthrough :
    (∀ (h : Heap) (options : ROptions) (i r : Nat),
        hasDeclarationsArray (getObj h r) = false →
        normalizeToolEntry h options i (.obj r) =
          (.obj ((getObj h r).map (fun p => (p.1, ofJVal p.2))), [], []))
    ∧ (∀ (h : Heap) (cfg : NormalizationConfig) (ts : List JVal) (i r : Nat),
        ts.get? i = some (.obj r) →
        hasDeclarationsArray (getObj h r) = false →
        (normalizeTools h (.arr ts) cfg).tools.get? i =
          some (.obj ((getObj h r).map (fun p => (p.1, ofJVal p.2))))) := by
  have base : ∀ (h : Heap) (options : ROptions) (i r : Nat),
      hasDeclarationsArray (getObj h r) = false →
      normalizeToolEntry h options i (.obj r) =
        (.obj ((getObj h r).map (fun p => (p.1, ofJVal p.2))), [], []) := by
    intro h options i r hnd
    simp only [normalizeToolEntry]
    split
    next ds heq =>
      exfalso
      unfold hasDeclarationsArray at hnd
      rw [heq] at hnd
      simp at hnd
    next x heq => rfl
  refine ⟨base, ?_⟩
  intro h cfg ts i r hi hnd
  have hg := normalizeToolsList_tools_get h (resolveConfig cfg) ts 0 i _ hi
  rw [Nat.zero_add] at hg
  have hb : (normalizeTools h (.arr ts) cfg).tools =
      (normalizeToolsList h (resolveConfig cfg) 0 ts).1 := rfl
  rw [hb, hg, base h (resolveConfig cfg) i r hnd]

/-- Witness for C10: the tool `{name:"t", function_declarations:7}`. -/
theorem C10_tool_passthrough_witness :
    normalizeToolEntry [[("name", .str "t"), ("function_declarations", .num 7)]]
        DEFAULT_CONFIG 0 (.obj 0) =
      (.obj [("name", .str "t"), ("function_declarations", .num 7)], [], [])
    ∧ (normalizeTools [[("name", .str "t"), ("function_declarations", .num 7)]]
        (.arr [.obj 0]) {}).tools.get? 0 =
      some (.obj [("name", .str "t"), ("function_declarations", .num 7)]) :=
  ⟨C10_tool_passthrough.1 _ DEFAULT_CONFIG 0 0 (by decide),
   C10_tool_passthrough.2 _ {} [.obj 0] 0 0 (by decide) (by decide)⟩

/-! ## Required-inference against the specification's description -/

/-- Written from the specification's words: a property is inferred required
exactly when its (normalized) schema has no `default`, is not marked
`optional: true`, and has a resolved type that is a single non-null name
(nullable, union-typed, or type-less properties are never inferred). -/
def specRequiredProperty (schema : OVal) : Bool :=
  match schema with
  | .obj fields =>
    (fieldO fields "default").isNone
    && !(match fieldO fields "optional" with | some (.bool true) => true | _ => false)
    && (match fieldO fields "type" with
        | some (.str s) => s ≠ "" && s ≠ "null"
        | some (.arr [.str s]) => s ≠ "null"
        | _ => false)
  | _ => false

/-- Written from the specification's words: the inferred `required` list is
exactly the keys of the properties satisfying `specRequiredProperty`, in
property order. -/
def specInferredRequired (props : OObj) : List String :=
  (props.filter (fun p => specRequiredProperty p.2)).map (fun p => p.1)

/-- A property value whose `type` field (if any) holds only type names, as
every normalized node does. -/
def valueTypeWellFormed (schema : OVal) : Bool :=
  match schema with
  | .obj fields =>
    (match fieldO fields "type" with
     | none => true
     | some (.str _) => true
     | some (.arr xs) => xs.all (fun v => match v with | .str _ => true | _ => false)
     | some _ => false)
  | _ => true

/-- All property values of a properties map are type-well-formed. -/
def propsTypesWellFormed (props : OObj) : Bool :=
  props.all (fun p => valueTypeWellFormed p.2)

theorem inferRequired_head (key : String) (schema : OVal) (rest : OObj)
    (hw : valueTypeWellFormed schema = true) :
    inferRequiredFromProperties ((key, schema) :: rest) =
      (if specRequiredProperty schema then key :: inferRequiredFromProperties rest
       else inferRequiredFromProperties rest) := by
  cases schema
  case obj fields =>
    rcases htype : fieldO fields "type" with _ | v
    · simp [inferRequiredFromProperties, specRequiredProperty, htype, ite_self]
    · cases v with
      | str s =>
        by_cases hs0 : s = ""
        · subst hs0
          simp [inferRequiredFromProperties, specRequiredProperty, htype, jsTruthy, ite_self]
        · by_cases hdef : (fieldO fields "default").isSome
          · have hdef2 : fieldO fields "default" ≠ none := Option.isSome_iff_ne_none.mp hdef
            simp [inferRequiredFromProperties, specRequiredProperty, htype, jsTruthy,
              hs0, hdef, hdef2, ite_self]
          · have hdef2 : fieldO fields "default" = none :=
              Option.not_isSome_iff_eq_none.mp (by simpa using hdef)
            by_cases hopt : (match fieldO fields "optional" with
              | some (.bool true) => true | _ => false) = true
            · simp [inferRequiredFromProperties, specRequiredProperty, htype, jsTruthy,
                hs0, hdef, hdef2, hopt, ite_self]
            · by_cases hnull : s = "null"
              · subst hnull
                simp [inferRequiredFromProperties, specRequiredProperty, htype, jsTruthy,
                  hdef, hdef2, hopt]
              · simp [inferRequiredFromProperties, specRequiredProperty, htype, jsTruthy,
                  hs0, hdef, hdef2, hopt, hnull]
      | arr xs =>
        simp only [valueTypeWellFormed, htype] at hw
        rcases xs with _ | ⟨x, _ | ⟨y, xs'⟩⟩
        · simp [inferRequiredFromProperties, specRequiredProperty, htype, ite_self]
        · cases x with
          | str s =>
            by_cases hdef : (fieldO fields "default").isSome
            · have hdef2 : fieldO fields "default" ≠ none := Option.isSome_iff_ne_none.mp hdef
              simp [inferRequiredFromProperties, specRequiredProperty, htype, hdef, hdef2,
                ite_self]
            · have hdef2 : fieldO fields "default" = none :=
                Option.not_isSome_iff_eq_none.mp (by simpa using hdef)
              by_cases hopt : (match fieldO fields "optional" with
                | some (.bool true) => true | _ => false) = true
              · simp [inferRequiredFromProperties, specRequiredProperty, htype, hdef,
                  hdef2, hopt, ite_self]
              · by_cases hnull : s = "null"
                · subst hnull
                  simp [inferRequiredFromProperties, specRequiredProperty, htype, hdef,
                    hdef2, hopt]
                · simp [inferRequiredFromProperties, specRequiredProperty, htype, hdef,
                    hdef2, hopt, hnull]
          | _ => simp at hw
        · by_cases hnull : ((x :: y :: xs').any
              (fun v => match v with | .str s => s = "null" | _ => false)) = true
          · simp [inferRequiredFromProperties, specRequiredProperty, htype, hnull, ite_self]
          · simp [inferRequiredFromProperties, specRequiredProperty, htype, hnull, ite_self]
      | _ => simp [valueTypeWellFormed, htype] at hw
  all_goals simp [inferRequiredFromProperties, specRequiredProperty]

/-- C5: the inferred `required` list used by `assignObjectConstraints` when a
node has no usable declared `required` list is exactly the specification's
conservative set: properties with no `default`, not `optional: true`, and a
single non-null resolved type name; union-typed, nullable or type-less
properties are never included. -/
theorem C5_infer_required_conservative (props : OObj)
    (hw : propsTypesWellFormed props = true) :
    inferRequiredFromProperties props = specInferredRequired props := by
  induction props with
  | nil => rfl
  | cons p rest ih =>
    obtain ⟨key, schema⟩ := p
    simp only [propsTypesWellFormed, List.all_cons, Bool.and_eq_true] at hw
    have ihr := ih (by simpa [propsTypesWellFormed] using hw.2)
    rw [inferRequired_head key schema rest hw.1]
    simp only [specInferredRequired, List.filter_cons]
    by_cases hsp : specRequiredProperty schema = true
    · simp [hsp, ihr, specInferredRequired]
    · simp only [Bool.not_eq_true] at hsp
      simp [hsp, ihr, specInferredRequired]

/-- Witness for C5 on the specification's own Scenario B property map. -/
theorem C5_infer_required_conservative_witness :
    inferRequiredFromProperties
        [("id", .obj [("type", .str "string")]),
         ("email", .obj [("type", .arr [.str "string", .str "null"])])] =
      specInferredRequired
        [("id", .obj [("type", .str "string")]),
         ("email", .obj [("type", .arr [.str "string", .str "null"])])] :=
  C5_infer_required_conservative _ (by decide)

/-! ## Field lemmas -/

@[simp] theorem fieldO_nil (k : String) : fieldO [] k = none := rfl

theorem fieldO_cons (a : String × OVal) (rest : OObj) (k : String) :
    fieldO (a :: rest) k = if a.1 = k then some a.2 else fieldO rest k := by
  by_cases ha : a.1 = k <;> simp [fieldO, List.find?_cons, ha]

theorem fieldO_setO_same (o : OObj) (k : String) (v : OVal) :
    fieldO (setO o k v) k = some v := by
  unfold setO
  by_cases hany : o.any (fun p => p.1 = k) = true
  · rw [if_pos hany]
    induction o with
    | nil => simp at hany
    | cons a rest ih =>
      by_cases ha : a.1 = k
      · simp [List.map_cons, ha, fieldO_cons]
      · simp only [List.any_cons, Bool.or_eq_true] at hany
        rcases hany with h1 | h2
        · exact absurd (by simpa using h1) ha
        · simpa [List.map_cons, ha, fieldO_cons] using ih h2
  · rw [if_neg hany]
    induction o with
    | nil => simp [fieldO_cons]
    | cons a rest ih =>
      simp only [List.any_cons, Bool.or_eq_true, not_or] at hany
      have ha : ¬ a.1 = k := by simpa using hany.1
      simpa [List.cons_append, fieldO_cons, ha] using ih (by simpa using hany.2)

theorem fieldO_mapSet_ne (k k2 : String) (v : OVal) (hne : k2 ≠ k) :
    ∀ (o : OObj), fieldO (o.map (fun p => if p.1 = k then (k, v) else p)) k2 = fieldO o k2 := by
  intro o
  induction o with
  | nil => simp
  | cons a rest ih =>
    by_cases ha : a.1 = k
    · have hak : ¬ a.1 = k2 := by rw [ha]; exact fun hh => hne hh.symm
      have hkk2 : ¬ k = k2 := fun hh => hne hh.symm
      simp [List.map_cons, ha, fieldO_cons, hak, hkk2, ih]
    · by_cases ha2 : a.1 = k2 <;> simp [List.map_cons, ha, fieldO_cons, ha2, ih, hne, hne.symm]

theorem fieldO_append_ne (k k2 : String) (v : OVal) (hne : k2 ≠ k) :
    ∀ (o : OObj), fieldO (o ++ [(k, v)]) k2 = fieldO o k2 := by
  intro o
  induction o with
  | nil => simp [fieldO_cons, hne.symm]
  | cons a rest ih =>
    by_cases ha2 : a.1 = k2 <;> simp [List.cons_append, fieldO_cons, ha2, ih]

theorem fieldO_setO_ne (o : OObj) (k k2 : String) (v : OVal) (hne : k2 ≠ k) :
    fieldO (setO o k v) k2 = fieldO o k2 := by
  unfold setO
  by_cases hany : o.any (fun p => p.1 = k) = true
  · rw [if_pos hany]; exact fieldO_mapSet_ne k k2 v hne o
  · rw [if_neg hany]; exact fieldO_append_ne k k2 v hne o

theorem fieldO_copyNumericConstraint_ne (source : Obj) (o : OObj) (key k : String)
    (h : k ≠ key) : fieldO (copyNumericConstraint source o key) k = fieldO o k := by
  unfold copyNumericConstraint
  split
  · exact fieldO_setO_ne _ _ _ _ h
  · rfl

/-! ## Frame lemmas: each assigner writes only its own keys -/

theorem assignStringConstraints_field_ne (cleaned : Obj) (o : OObj) (k : String)
    (h1 : k ≠ "pattern") (h2 : k ≠ "format") (h3 : k ≠ "minLength") (h4 : k ≠ "maxLength") :
    fieldO (assignStringConstraints cleaned o) k = fieldO o k := by
  unfold assignStringConstraints
  dsimp only
  split
  · rfl
  · rw [fieldO_copyNumericConstraint_ne _ _ _ _ h4, fieldO_copyNumericConstraint_ne _ _ _ _ h3]
    split
    all_goals try rw [fieldO_setO_ne _ _ _ _ h2]
    all_goals split
    all_goals try rw [fieldO_setO_ne _ _ _ _ h1]
    all_goals rfl

theorem assignNumericConstraints_field_ne (cleaned : Obj) (o : OObj) (k : String)
    (h1 : k ≠ "minimum") (h2 : k ≠ "maximum") (h3 : k ≠ "exclusiveMinimum")
    (h4 : k ≠ "exclusiveMaximum") (h5 : k ≠ "multipleOf") :
    fieldO (assignNumericConstraints cleaned o) k = fieldO o k := by
  unfold assignNumericConstraints
  dsimp only
  split
  · rfl
  · rw [fieldO_copyNumericConstraint_ne _ _ _ _ h5, fieldO_copyNumericConstraint_ne _ _ _ _ h4,
      fieldO_copyNumericConstraint_ne _ _ _ _ h3, fieldO_copyNumericConstraint_ne _ _ _ _ h2,
      fieldO_copyNumericConstraint_ne _ _ _ _ h1]

theorem assignArrayConstraints_field_ne (norm : Normalizer) (cleaned : Obj) (o : OObj)
    (ctx : Ctx) (st : St) (k : String)
    (h1 : k ≠ "items") (h2 : k ≠ "minItems") (h3 : k ≠ "maxItems")
    (h4 : k ≠ "uniqueItems") (h5 : k ≠ "contains") :
    fieldO (assignArrayConstraints norm cleaned o ctx st).1 k = fieldO o k := by
  unfold assignArrayConstraints
  dsimp only
  split
  · rfl
  · split
    all_goals try dsimp only
    all_goals try rw [fieldO_setO_ne _ _ _ _ h5]
    all_goals split
    all_goals try dsimp only
    all_goals try rw [fieldO_setO_ne _ _ _ _ h4]
    all_goals rw [fieldO_copyNumericConstraint_ne _ _ _ _ h3,
      fieldO_copyNumericConstraint_ne _ _ _ _ h2]
    all_goals split
    all_goals try dsimp only
    all_goals try split
    all_goals try dsimp only
    all_goals try rw [fieldO_setO_ne _ _ _ _ h1]
    all_goals rfl

set_option maxRecDepth 8000 in
theorem assignObjectConstraints_field_ne (h : Heap) (norm : Normalizer) (cleaned : Obj)
    (o : OObj) (ctx : Ctx) (st : St) (k : String)
    (h1 : k ≠ "properties") (h2 : k ≠ "patternProperties") (h3 : k ≠ "additionalProperties")
    (h4 : k ≠ "minProperties") (h5 : k ≠ "maxProperties") (h6 : k ≠ "required") :
    fieldO (assignObjectConstraints h norm cleaned o ctx st).1 k = fieldO o k := by
  unfold assignObjectConstraints
  dsimp only
  split
  · split <;> rfl
  · repeat
      first
      | rfl
      | rw [fieldO_setO_ne _ _ _ _ h6]
      | rw [fieldO_copyNumericConstraint_ne _ _ _ _ h5]
      | rw [fieldO_copyNumericConstraint_ne _ _ _ _ h4]
      | rw [fieldO_setO_ne _ _ _ _ h3]
      | rw [fieldO_setO_ne _ _ _ _ h2]
      | rw [fieldO_setO_ne _ _ _ _ h1]
      | (split <;> try dsimp only)
      | dsimp only

theorem ensureDescription_field_ne (hh : Heap) (o : OObj) (ctx : Ctx) (k : String)
    (hk : k ≠ "description") :
    fieldO (ensureDescription hh o ctx) k = fieldO o k := by
  unfold ensureDescription
  split
  · rfl
  · dsimp only
    split
    · exact fieldO_setO_ne _ _ _ _ hk
    · split
      · rfl
      · split
        · rfl
        · exact fieldO_setO_ne _ _ _ _ hk

/-! ## Supporting lemmas for the nullable-union claim -/

theorem cleanUnsupportedKeywords_fst (o : Obj) (ctx : Ctx) :
    ∀ (st st2 : St), (cleanUnsupportedKeywords o ctx st).1 = (cleanUnsupportedKeywords o ctx st2).1 := by
  induction o with
  | nil => intro st st2; rfl
  | cons kv rest ih =>
    intro st st2
    unfold cleanUnsupportedKeywords
    split
    · exact ih _ _
    · dsimp only
      rw [ih st st2]

theorem normalizeType_fst (tv : Option JVal) (ctx : Ctx) (st st2 : St) :
    (normalizeType tv ctx st).1 = (normalizeType tv ctx st2).1 := by
  unfold normalizeType
  rcases tv with _ | v
  · rfl
  · cases v
    case str s => dsimp only; split <;> rfl
    case arr xs => dsimp only; split <;> rfl
    all_goals rfl

theorem dedupeAux_not_mem {α : Type} [BEq α] [LawfulBEq α] :
    ∀ (l seen : List α) (x : α), x ∈ seen → x ∉ dedupeAux seen l := by
  intro l
  induction l with
  | nil => intro seen x _; simp [dedupeAux]
  | cons y ys ih =>
    intro seen x hx
    unfold dedupeAux
    split
    · exact ih seen x hx
    next hany =>
      intro hmem
      rcases List.mem_cons.mp hmem with h1 | h2
      · subst h1
        exact hany (List.any_eq_true.mpr ⟨x, hx, by simp⟩)
      · exact ih (y :: seen) x (List.mem_cons_of_mem _ hx) h2

theorem dedupeAux_nodup {α : Type} [BEq α] [LawfulBEq α] :
    ∀ (l seen : List α), (dedupeAux seen l).Nodup := by
  intro l
  induction l with
  | nil => intro seen; simp [dedupeAux]
  | cons y ys ih =>
    intro seen
    unfold dedupeAux
    split
    · exact ih seen
    · exact List.nodup_cons.mpr ⟨dedupeAux_not_mem ys (y :: seen) y (by simp), ih (y :: seen)⟩

theorem dedupe_nodup {α : Type} [BEq α] [LawfulBEq α] (l : List α) : (dedupe l).Nodup :=
  dedupeAux_nodup l []

theorem any_null_iff_mem (ts : List OVal) :
    (ts.any (fun v => match v with | .str s => s = "null" | _ => false)) = true ↔
      OVal.str "null" ∈ ts := by
  rw [List.any_eq_true]
  constructor
  · rintro ⟨v, hv, hm⟩
    cases v <;> simp at hm
    case str s => subst hm; exact hv
  · intro hm
    exact ⟨_, hm, by simp⟩

theorem normalizeType_fst_arr (tv : Option JVal) (ctx : Ctx) (st : St) (ts : List OVal)
    (hr : (normalizeType tv ctx st).1 = some (.arr ts)) :
    ∃ ss : List String, ts = ss.map OVal.str ∧ ss.Nodup := by
  unfold normalizeType at hr
  rcases tv with _ | v
  · simp at hr
  · cases v <;> simp at hr
    case str s => split at hr <;> simp at hr
    case arr xs =>
      split at hr <;> simp at hr
      exact ⟨_, hr.symm, dedupe_nodup _⟩

theorem inferType_arr (cleaned : Obj) (ts : List OVal)
    (hr : inferType cleaned = some (.arr ts)) :
    ∃ ss : List String, ts = ss.map OVal.str ∧ ss.Nodup := by
  unfold inferType at hr
  split at hr
  · simp at hr
  · split at hr
    · simp at hr
    · split at hr
      next e es =>
        dsimp only at hr
        split at hr <;> simp at hr
        exact ⟨_, hr.symm, dedupe_nodup _⟩
      next =>
        split at hr
        · simp at hr
        · split at hr
          · simp at hr
          · split at hr
            · simp at hr
            · split at hr
              · split at hr <;> simp at hr
              · simp at hr

theorem fieldO_type_ite (X : OObj) (C : Prop) [Decidable C] (v tv : OVal)
    (htv : jsTruthy tv = true) (hX : fieldO X "type" = some tv) :
    fieldO (if ¬ truthyField X "type" = true ∧ C then setO X "type" v else X) "type" = some tv := by
  rw [if_neg]
  · exact hX
  · intro hc
    exact hc.1 (by unfold truthyField; rw [hX]; exact htv)

theorem fieldO_ite_setO_ne (X : OObj) (C : Prop) [Decidable C] (k k2 : String) (v : OVal)
    (hne : k2 ≠ k) :
    fieldO (if C then setO X k v else X) k2 = fieldO X k2 := by
  split
  · exact fieldO_setO_ne _ _ _ _ hne
  · rfl


set_option maxRecDepth 8000 in
set_option maxHeartbeats 1000000 in
theorem preResult_type (cleaned : Obj) (rv : Option OVal) :
    fieldO (preResult cleaned rv) "type" = rv := by
  cases rv <;>
    (unfold preResult
     dsimp only
     repeat'
       first
       | exact fieldO_setO_same _ _ _
       | rw [assignNumericConstraints_field_ne _ _ _ (by decide) (by decide) (by decide)
           (by decide) (by decide)]
       | rw [assignStringConstraints_field_ne _ _ _ (by decide) (by decide) (by decide)
           (by decide)]
       | rw [fieldO_setO_ne _ _ _ _ (by decide)]
       | (split <;> try dsimp only)
       | dsimp only)
  all_goals first
    | rfl
    | exact fieldO_setO_same _ _ _

set_option maxRecDepth 8000 in
set_option maxHeartbeats 1000000 in
theorem preResult_nullable (cleaned : Obj) (rv : Option OVal) :
    fieldO (preResult cleaned rv) "nullable" = none := by
  cases rv <;>
    (unfold preResult
     dsimp only
     repeat'
       first
       | rw [assignNumericConstraints_field_ne _ _ _ (by decide) (by decide) (by decide)
           (by decide) (by decide)]
       | rw [assignStringConstraints_field_ne _ _ _ (by decide) (by decide) (by decide)
           (by decide)]
       | rw [fieldO_setO_ne _ _ _ _ (by decide)]
       | (split <;> try dsimp only)
       | dsimp only)
  all_goals rfl

theorem finishResult_type (h : Heap) (ctx : Ctx) (result : OObj) (tv : OVal)
    (htv : jsTruthy tv = true) (hX : fieldO result "type" = some tv) :
    fieldO (finishResult h ctx result) "type" = some tv := by
  unfold finishResult
  dsimp only
  rw [ensureDescription_field_ne _ _ _ _ (by decide)]
  refine fieldO_type_ite _ _ _ _ htv ?_
  exact fieldO_type_ite _ _ _ _ htv hX

theorem finishResult_field_ne (h : Heap) (ctx : Ctx) (result : OObj) (k : String)
    (hk : k ≠ "description") (hk2 : k ≠ "type") :
    fieldO (finishResult h ctx result) k = fieldO result k := by
  unfold finishResult
  dsimp only
  rw [ensureDescription_field_ne _ _ _ _ hk, fieldO_ite_setO_ne _ _ _ _ _ hk2,
    fieldO_ite_setO_ne _ _ _ _ _ hk2]

set_option maxRecDepth 8000 in
set_option maxHeartbeats 1000000 in
/-- Through every later stage of `normalizeNode`, the `type` resolved (and
nullable-adjusted) at the head of the node pipeline survives unchanged into
the output node, and the `nullable` keyword itself is never copied. -/
theorem normalizeNode_type_of_resolved (h : Heap) (fuel r : Nat) (ctx : Ctx) (st : St)
    (hd : ctx.depth < ctx.options.maxDepth) (hs : r ∉ st.seen) (tv : OVal)
    (htv : jsTruthy tv = true)
    (hrt : applyNullableIf
        (match fieldJ (cleanUnsupportedKeywords (getObj h r) ctx st).1 "nullable" with
         | some (.bool true) => true | _ => false)
        (match (normalizeType (fieldJ (cleanUnsupportedKeywords (getObj h r) ctx st).1 "type")
            ctx st).1 with
         | some t => some t
         | none => inferType (cleanUnsupportedKeywords (getObj h r) ctx st).1) = some tv) :
    fieldOv (normalizeNode h (fuel + 1) (.obj r) ctx st).1 "type" = some tv
    ∧ fieldOv (normalizeNode h (fuel + 1) (.obj r) ctx st).1 "nullable" = none := by
  have hstep : normalizeNode h (fuel + 1) (.obj r) ctx st =
      normalizeNodeStep h (normalizeNode h fuel) (.obj r) ctx st := by
    simp only [normalizeNode]
  rw [hstep]
  unfold normalizeNodeStep
  dsimp only
  rw [if_neg (by omega), if_neg hs]
  dsimp only
  rw [cleanUnsupportedKeywords_fst (getObj h r) ctx { st with seen := r :: st.seen } st]
  rw [normalizeType_fst _ ctx
    ((cleanUnsupportedKeywords (getObj h r) ctx { st with seen := r :: st.seen }).2) st]
  rw [hrt]
  constructor
  · dsimp only [fieldOv]
    refine finishResult_type _ _ _ _ htv ?_
    rw [assignObjectConstraints_field_ne _ _ _ _ _ _ _ (by decide) (by decide) (by decide)
      (by decide) (by decide) (by decide)]
    rw [assignArrayConstraints_field_ne _ _ _ _ _ _ (by decide) (by decide) (by decide)
      (by decide) (by decide)]
    exact preResult_type _ _
  · dsimp only [fieldOv]
    rw [finishResult_field_ne _ _ _ _ (by decide) (by decide)]
    rw [assignObjectConstraints_field_ne _ _ _ _ _ _ _ (by decide) (by decide) (by decide)
      (by decide) (by decide) (by decide)]
    rw [assignArrayConstraints_field_ne _ _ _ _ _ _ (by decide) (by decide) (by decide)
      (by decide) (by decide)]
    exact preResult_nullable _ _

/-- The type resolved by `normalizeNode` before the nullable conversion:
the validated explicit `type` if any, else the structurally inferred type
(reading the node after keyword filtering). -/
def resolvedTypeOf (h : Heap) (r : Nat) (ctx : Ctx) (st : St) : Option OVal :=
  match (normalizeType (fieldJ (cleanUnsupportedKeywords (getObj h r) ctx st).1 "type")
      ctx st).1 with
  | some t => some t
  | none => inferType (cleanUnsupportedKeywords (getObj h r) ctx st).1

theorem resolvedTypeOf_arr_nodup (h : Heap) (r : Nat) (ctx : Ctx) (st : St) (ts : List OVal)
    (hrt : resolvedTypeOf h r ctx st = some (.arr ts)) : ts.Nodup := by
  unfold resolvedTypeOf at hrt
  split at hrt
  next t heq =>
    obtain ⟨ss, hss, hnd⟩ := normalizeType_fst_arr _ ctx st ts (by rw [heq, hrt])
    subst hss
    exact hnd.map (fun a b hab => OVal.str.inj hab)
  next heq =>
    obtain ⟨ss, hss, hnd⟩ := inferType_arr _ ts hrt
    subst hss
    exact hnd.map (fun a b hab => OVal.str.inj hab)

set_option maxRecDepth 8000 in
set_option maxHeartbeats 1000000 in
/-- The output node of a normal (unguarded) `normalizeNode` pass never
carries the `nullable` key, whatever type was resolved. -/
theorem normalizeNode_no_nullable_key (h : Heap) (fuel r : Nat) (ctx : Ctx) (st : St)
    (hd : ctx.depth < ctx.options.maxDepth) (hs : r ∉ st.seen) :
    fieldOv (normalizeNode h (fuel + 1) (.obj r) ctx st).1 "nullable" = none := by
  have hstep : normalizeNode h (fuel + 1) (.obj r) ctx st =
      normalizeNodeStep h (normalizeNode h fuel) (.obj r) ctx st := by
    simp only [normalizeNode]
  rw [hstep]
  unfold normalizeNodeStep
  dsimp only
  rw [if_neg (by omega), if_neg hs]
  dsimp only [fieldOv]
  rw [finishResult_field_ne _ _ _ _ (by decide) (by decide)]
  rw [assignObjectConstraints_field_ne _ _ _ _ _ _ _ (by decide) (by decide) (by decide)
    (by decide) (by decide) (by decide)]
  rw [assignArrayConstraints_field_ne _ _ _ _ _ _ (by decide) (by decide) (by decide)
    (by decide) (by decide)]
  exact preResult_nullable _ _

/-- C2: for an object-shaped input node carrying `nullable:true` (read after
keyword filtering, exactly as the code does) whose pipeline resolves a type:
a single non-null name `T` becomes exactly the two-element union
`[T,"null"]`; an array of names gains `"null"` only when absent, so that
`"null"` occurs exactly once in the output `type`; the lone name `"null"`
stays `"null"`; and the `nullable` key itself is absent from the output. -/
theorem C2_nullable_union (h : Heap) (fuel r : Nat) (ctx : Ctx) (st : St)
    (hd : ctx.depth < ctx.options.maxDepth) (hs : r ∉ st.seen)
    (hnul : fieldJ (cleanUnsupportedKeywords (getObj h r) ctx st).1 "nullable"
      = some (.bool true)) :
    (∀ T, resolvedTypeOf h r ctx st = some (.str T) → T ≠ "null" →
        fieldOv (normalizeNode h (fuel + 1) (.obj r) ctx st).1 "type"
          = some (.arr [.str T, .str "null"]))
    ∧ (resolvedTypeOf h r ctx st = some (.str "null") →
        fieldOv (normalizeNode h (fuel + 1) (.obj r) ctx st).1 "type" = some (.str "null"))
    ∧ (∀ ts, resolvedTypeOf h r ctx st = some (.arr ts) →
        fieldOv (normalizeNode h (fuel + 1) (.obj r) ctx st).1 "type"
          = some (.arr (if OVal.str "null" ∈ ts then ts else ts ++ [.str "null"]))
        ∧ (if OVal.str "null" ∈ ts then ts else ts ++ [.str "null"]).count (.str "null") = 1)
    ∧ fieldOv (normalizeNode h (fuel + 1) (.obj r) ctx st).1 "nullable" = none := by
  have hnull0 : ∀ tv, jsTruthy tv = true →
      applyNullableIf
        (match fieldJ (cleanUnsupportedKeywords (getObj h r) ctx st).1 "nullable" with
         | some (.bool true) => true | _ => false)
        (resolvedTypeOf h r ctx st) = some tv →
      fieldOv (normalizeNode h (fuel + 1) (.obj r) ctx st).1 "type" = some tv
      ∧ fieldOv (normalizeNode h (fuel + 1) (.obj r) ctx st).1 "nullable" = none :=
    fun tv htv happ => normalizeNode_type_of_resolved h fuel r ctx st hd hs tv htv happ
  refine ⟨?_, ?_, ?_, normalizeNode_no_nullable_key h fuel r ctx st hd hs⟩
  · intro T hrt hTn
    refine (hnull0 (.arr [.str T, .str "null"]) rfl ?_).1
    rw [hnul]
    simp only [applyNullableIf, if_pos]
    rw [hrt]
    simp [applyNullable, hTn]
  · intro hrt
    refine (hnull0 (.str "null") rfl ?_).1
    rw [hnul]
    simp only [applyNullableIf, if_pos]
    rw [hrt]
    simp [applyNullable]
  · intro ts hrt
    have hnd : ts.Nodup := resolvedTypeOf_arr_nodup h r ctx st ts hrt
    by_cases hmem : OVal.str "null" ∈ ts
    · have hany : (ts.any (fun v => match v with | .str s => s = "null" | _ => false)) = true :=
        (any_null_iff_mem ts).mpr hmem
      constructor
      · rw [if_pos hmem]
        refine (hnull0 (.arr ts) rfl ?_).1
        rw [hnul]
        simp only [applyNullableIf, if_pos]
        rw [hrt]
        simp [applyNullable, hany]
      · rw [if_pos hmem]
        exact List.count_eq_one_of_mem hnd hmem
    · have hany : (ts.any (fun v => match v with | .str s => s = "null" | _ => false)) = false := by
        rw [← Bool.not_eq_true]
        exact fun hc => hmem ((any_null_iff_mem ts).mp hc)
      constructor
      · rw [if_neg hmem]
        refine (hnull0 (.arr (ts ++ [.str "null"])) rfl ?_).1
        rw [hnul]
        simp only [applyNullableIf, if_pos]
        rw [hrt]
        simp [applyNullable, hany]
      · rw [if_neg hmem]
        rw [List.count_append]
        rw [List.count_eq_zero.mpr hmem]
        simp

theorem C2_nullable_union_witness :
    fieldOv (normalizeNode [[("type", JVal.str "string"), ("nullable", JVal.bool true)]] 1
        (.obj 0) ⟨[], 0, DEFAULT_CONFIG, none⟩ ⟨[], [], []⟩).1 "type"
      = some (.arr [.str "string", .str "null"])
    ∧ fieldOv (normalizeNode [[("type", JVal.str "string"), ("nullable", JVal.bool true)]] 1
        (.obj 0) ⟨[], 0, DEFAULT_CONFIG, none⟩ ⟨[], [], []⟩).1 "nullable" = none :=
  ⟨(C2_nullable_union [[("type", JVal.str "string"), ("nullable", JVal.bool true)]] 0 0
      ⟨[], 0, DEFAULT_CONFIG, none⟩ ⟨[], [], []⟩ (by decide) (by decide) (by decide)).1
      "string" (by decide) (by decide),
   (C2_nullable_union [[("type", JVal.str "string"), ("nullable", JVal.bool true)]] 0 0
      ⟨[], 0, DEFAULT_CONFIG, none⟩ ⟨[], [], []⟩ (by decide) (by decide) (by decide)).2.2.2⟩

/-! ## The visited set is never popped (claim C1) -/

theorem cleanUnsupportedKeywords_seen (o : Obj) (ctx : Ctx) :
    ∀ st : St, (cleanUnsupportedKeywords o ctx st).2.seen = st.seen := by
  induction o with
  | nil => intro st; rfl
  | cons kv rest ih =>
    intro st
    unfold cleanUnsupportedKeywords
    split
    · exact (ih _).trans rfl
    · exact ih st

theorem normalizeType_seen (v : Option JVal) (ctx : Ctx) (st : St) :
    (normalizeType v ctx st).2.seen = st.seen := by
  unfold normalizeType
  repeat' first
    | rfl
    | split
    | dsimp only

theorem collectRequired_seen (props : Option OVal) (ctx : Ctx) :
    ∀ (entries : List JVal) (st : St), (collectRequired props ctx entries st).2.seen = st.seen := by
  intro entries
  induction entries with
  | nil => intro st; rfl
  | cons e rest ih =>
    intro st
    unfold collectRequired
    repeat' split
    all_goals first | exact ih _ | exact (ih _).trans rfl

theorem normalizeRequiredList_seen (required : Option JVal) (properties : Option OVal)
    (ctx : Ctx) (st : St) :
    (normalizeRequiredList required properties ctx st).2.seen = st.seen := by
  unfold normalizeRequiredList
  repeat' first
    | rfl
    | exact collectRequired_seen _ _ _ _
    | split
    | dsimp only

theorem normalizeItemsList_seen_mono (norm : Normalizer)
    (Hn : ∀ v ctx st x, x ∈ st.seen → x ∈ (norm v ctx st).2.seen) (ctx : Ctx) :
    ∀ (xs : List JVal) (i : Nat) (st : St) (x : Nat), x ∈ st.seen →
      x ∈ (normalizeItemsList norm ctx i xs st).2.seen := by
  intro xs
  induction xs with
  | nil =>
    intro i st x hx
    exact hx
  | cons y rest ih =>
    intro i st x hx
    simp only [normalizeItemsList]
    exact ih (i + 1) _ x (Hn y _ st x hx)

theorem normalizeProperties_seen_mono (norm : Normalizer)
    (Hn : ∀ v ctx st x, x ∈ st.seen → x ∈ (norm v ctx st).2.seen) (ctx : Ctx) :
    ∀ (o : Obj) (st : St) (x : Nat), x ∈ st.seen →
      x ∈ (normalizeProperties norm ctx o st).2.seen := by
  intro o
  induction o with
  | nil =>
    intro st x hx
    exact hx
  | cons kv rest ih =>
    obtain ⟨key, value⟩ := kv
    intro st x hx
    simp only [normalizeProperties]
    exact ih _ x (Hn value _ st x hx)

theorem normalizePatternProperties_seen_mono (norm : Normalizer)
    (Hn : ∀ v ctx st x, x ∈ st.seen → x ∈ (norm v ctx st).2.seen) (ctx : Ctx) :
    ∀ (o : Obj) (st : St) (x : Nat), x ∈ st.seen →
      x ∈ (normalizePatternProperties norm ctx o st).2.seen := by
  intro o
  induction o with
  | nil =>
    intro st x hx
    exact hx
  | cons kv rest ih =>
    obtain ⟨pat, value⟩ := kv
    intro st x hx
    simp only [normalizePatternProperties]
    exact ih _ x (Hn value _ st x hx)

set_option maxRecDepth 8000 in
set_option maxHeartbeats 1600000 in
theorem assignArrayConstraints_seen_mono (norm : Normalizer)
    (Hn : ∀ v ctx st x, x ∈ st.seen → x ∈ (norm v ctx st).2.seen)
    (cleaned : Obj) (result : OObj) (ctx : Ctx) (st : St) (x : Nat)
    (hx : x ∈ st.seen) :
    x ∈ (assignArrayConstraints norm cleaned result ctx st).2.seen := by
  unfold assignArrayConstraints
  dsimp only
  split
  · exact hx
  · split <;> try dsimp only
    · refine Hn _ _ _ _ ?_
      split <;> try dsimp only
      · exact normalizeItemsList_seen_mono norm Hn ctx _ _ _ _ hx
      · exact Hn _ _ _ _ hx
      · split <;> try dsimp only
        · exact hx
        · exact hx
    · split <;> try dsimp only
      · exact normalizeItemsList_seen_mono norm Hn ctx _ _ _ _ hx
      · exact Hn _ _ _ _ hx
      · split <;> try dsimp only
        · exact hx
        · exact hx

set_option maxRecDepth 8000 in
theorem assignObjectConstraints_seen_mono (h : Heap) (norm : Normalizer)
    (Hn : ∀ v ctx st x, x ∈ st.seen → x ∈ (norm v ctx st).2.seen)
    (cleaned : Obj) (result : OObj) (ctx : Ctx) (st : St) (x : Nat)
    (hx : x ∈ st.seen) :
    x ∈ (assignObjectConstraints h norm cleaned result ctx st).2.seen := by
  have hP : ∀ (o : Obj) (st2 : St), x ∈ st2.seen →
      x ∈ (normalizeProperties norm ctx o st2).2.seen :=
    fun o st2 hh => normalizeProperties_seen_mono norm Hn ctx o st2 x hh
  have hQ : ∀ (o : Obj) (st2 : St), x ∈ st2.seen →
      x ∈ (normalizePatternProperties norm ctx o st2).2.seen :=
    fun o st2 hh => normalizePatternProperties_seen_mono norm Hn ctx o st2 x hh
  unfold assignObjectConstraints
  dsimp only
  split
  · split <;> try dsimp only
    · exact hx
    · exact hx
  · repeat' split
    all_goals try dsimp only
    all_goals rw [normalizeRequiredList_seen]
    all_goals first
      | exact hx
      | exact hP _ _ hx
      | exact hQ _ _ hx
      | exact Hn _ _ _ _ hx
      | exact hQ _ _ (hP _ _ hx)
      | exact Hn _ _ _ _ (hP _ _ hx)
      | exact Hn _ _ _ _ (hQ _ _ hx)
      | exact Hn _ _ _ _ (hQ _ _ (hP _ _ hx))

set_option maxRecDepth 8000 in
set_option maxHeartbeats 1600000 in
theorem normalizeNode_seen_mono (h : Heap) :
    ∀ (fuel : Nat) (v : JVal) (ctx : Ctx) (st : St) (x : Nat), x ∈ st.seen →
      x ∈ (normalizeNode h fuel v ctx st).2.seen := by
  intro fuel
  induction fuel with
  | zero =>
    intro v ctx st x hx
    exact hx
  | succ fuel ih =>
    intro v ctx st x hx
    simp only [normalizeNode]
    unfold normalizeNodeStep
    cases v with
    | obj r =>
      dsimp only
      split
      · exact hx
      · split
        · exact hx
        · refine assignObjectConstraints_seen_mono h (normalizeNode h fuel) ih _ _ ctx _ x ?_
          refine assignArrayConstraints_seen_mono (normalizeNode h fuel) ih _ _ ctx _ x ?_
          rw [normalizeType_seen]
          rw [cleanUnsupportedKeywords_seen]
          exact List.mem_cons_of_mem _ hx
    | null => exact hx
    | bool b => exact hx
    | num n => exact hx
    | str s => exact hx
    | arr xs => exact hx

set_option maxRecDepth 8000 in
set_option maxHeartbeats 1600000 in
theorem normalizeNode_seen_insert (h : Heap) (fuel r : Nat) (ctx : Ctx) (st : St)
    (hd : ctx.depth < ctx.options.maxDepth) (hs : r ∉ st.seen) :
    r ∈ (normalizeNode h (fuel + 1) (.obj r) ctx st).2.seen := by
  simp only [normalizeNode]
  unfold normalizeNodeStep
  dsimp only
  rw [if_neg (by omega), if_neg hs]
  refine assignObjectConstraints_seen_mono h (normalizeNode h fuel)
    (normalizeNode_seen_mono h fuel) _ _ ctx _ r ?_
  refine assignArrayConstraints_seen_mono (normalizeNode h fuel)
    (normalizeNode_seen_mono h fuel) _ _ ctx _ r ?_
  rw [normalizeType_seen]
  rw [cleanUnsupportedKeywords_seen]
  exact List.mem_cons_self _ _

/-- C1: the claim is corrected.  Visited-set membership is not scoped to the
open ancestor chain: (1) membership only ever grows through a whole
`normalizeNode` call (nothing is popped on ascent), (2) a node the normalizer
descends into is still in the visited set after the call returns, and (3) a
`circular_reference` diagnostic is emitted exactly when the node is already a
member of the persistent visited set — which `C1_counterexample` shows can
happen for a node merely shared between two sibling positions, not only for
true cycles. -/
theorem C1_visited_persists_and_flags (h : Heap) (fuel : Nat) :
    (∀ (v : JVal) (ctx : Ctx) (st : St) (x : Nat), x ∈ st.seen →
        x ∈ (normalizeNode h fuel v ctx st).2.seen)
    ∧ (∀ (r : Nat) (ctx : Ctx) (st : St), ctx.depth < ctx.options.maxDepth →
        r ∉ st.seen → r ∈ (normalizeNode h (fuel + 1) (.obj r) ctx st).2.seen)
    ∧ (∀ (r : Nat) (ctx : Ctx) (st : St), ctx.depth < ctx.options.maxDepth →
        r ∈ st.seen →
        normalizeNode h (fuel + 1) (.obj r) ctx st =
          (fallbackNode, pushError st
            ⟨.circular_reference, "Circular reference detected",
              some (pathToString ctx.path)⟩)) :=
  ⟨normalizeNode_seen_mono h fuel,
   fun r ctx st hd hs => normalizeNode_seen_insert h fuel r ctx st hd hs,
   fun r ctx st hd hs => normalizeNode_circular h fuel r ctx st hd hs⟩

theorem C1_visited_persists_and_flags_witness :
    (5 ∈ (normalizeNode [[("a", JVal.num 1)]] 1 (.obj 0)
        ⟨[], 0, DEFAULT_CONFIG, none⟩ ⟨[5], [], []⟩).2.seen)
    ∧ (0 ∈ (normalizeNode [[("a", JVal.num 1)]] 1 (.obj 0)
        ⟨[], 0, DEFAULT_CONFIG, none⟩ ⟨[], [], []⟩).2.seen)
    ∧ normalizeNode [[("a", JVal.num 1)]] 1 (.obj 0)
        ⟨[], 0, DEFAULT_CONFIG, none⟩ ⟨[0], [], []⟩ =
      (fallbackNode, pushError ⟨[0], [], []⟩
        ⟨.circular_reference, "Circular reference detected",
          some (pathToString [])⟩) :=
  ⟨(C1_visited_persists_and_flags [[("a", JVal.num 1)]] 1).1 (.obj 0)
      ⟨[], 0, DEFAULT_CONFIG, none⟩ ⟨[5], [], []⟩ 5 (by decide),
   (C1_visited_persists_and_flags [[("a", JVal.num 1)]] 0).2.1 0
      ⟨[], 0, DEFAULT_CONFIG, none⟩ ⟨[], [], []⟩ (by decide) (by decide),
   (C1_visited_persists_and_flags [[("a", JVal.num 1)]] 0).2.2 0
      ⟨[], 0, DEFAULT_CONFIG, none⟩ ⟨[0], [], []⟩ (by decide) (by decide)⟩

/-! ## Keyword stripping, warnings, and the output-key whitelist (claim C4) -/

/-- One output node is required-consistent: when it carries both a `required`
array and a `properties` object, every `required` entry either names an own
key of that `properties` object or is an `Object.prototype` member name (the
JavaScript `in` check used for filtering walks the prototype chain, so such
entries are kept by the code); a node missing either key imposes nothing. -/
def nodeReqOk (fields : OObj) : Bool :=
  match fieldO fields "required", fieldO fields "properties" with
  | some (.arr entries), some (.obj props) =>
    entries.all (fun e => match e with
      | .str s => props.any (fun p => p.1 = s) || s ∈ OBJECT_PROTOTYPE_KEYS
      | _ => false)
  | _, _ => true

mutual
/-- Required-consistency of every normalizer-built node of an output value
(copied raw inputs — `OVal.jref` — are opaque leaves). -/
def reqInvO : OVal → Bool
  | .obj fields => nodeReqOk fields && reqInvFields fields
  | .arr xs => reqInvList xs
  | _ => true

def reqInvList : List OVal → Bool
  | [] => true
  | x :: xs => reqInvO x && reqInvList xs

def reqInvFields : OObj → Bool
  | [] => true
  | (_, v) :: rest => reqInvO v && reqInvFields rest
end

mutual
theorem reqInv_ofJVal : ∀ v : JVal, reqInvO (ofJVal v) = true
  | .null => rfl
  | .bool _ => rfl
  | .num _ => rfl
  | .str _ => rfl
  | .arr xs => by
    simp only [ofJVal, reqInvO]
    exact reqInv_ofJValList xs
  | .obj _ => rfl

theorem reqInv_ofJValList : ∀ l : List JVal, reqInvList (ofJValList l) = true
  | [] => rfl
  | x :: xs => by
    simp only [ofJValList, reqInvList]
    rw [reqInv_ofJVal x, reqInv_ofJValList xs]
    rfl
end

mutual
def odepthChild : OVal → Nat
  | .obj fields => 1 + odepthFields fields
  | .arr xs => 1 + odepthList xs
  | _ => 0

def odepthList : List OVal → Nat
  | [] => 0
  | x :: xs => max (odepthChild x) (odepthList xs)

def odepthFields : OObj → Nat
  | [] => 0
  | (_, v) :: rest => max (odepthChild v) (odepthFields rest)
end

